/-
Verification development for the jsparagus grammar-compiler core.

This file gives a shallow embedding, in Lean 4, of the parts of the
jsparagus code base that the specification talks about:

* `jsparagus/grammar.py` — the grammar data model (`Production`, `NtDef`,
  `Nt`, `InitNt`, elements, reduce expressions), the validating
  constructor `Grammar.__init__`, the lookahead-restriction algebra
  (`lookahead_contains` / `lookahead_intersect`), and `with_nonterminals`.
* `js_parser/parse_esgrammar.py` — the annotated-notation desugarer
  (`default_reducer`, `is_matched_pair`, `needs_asi`, `apply_asi`,
  `nt_def`) and the final assembly step `finish_grammar`.
* `jsparagus/emit.py` — the Rust backend's identifier case conversion
  (`to_snek_case`, `to_camel_case`, `nonterminal_to_snake`,
  `nonterminal_to_camel`) and the collision check `check_camel_case`.

Python's dynamically typed values are represented by explicit sum types.
Python `dict`s (which iterate in insertion order) are represented by
association lists; Python exceptions (`ValueError`, `TypeError`,
`NameError`) are represented by the `Except String` monad.  Error message
strings are abbreviated versions of the source's formatted messages
(the source interpolates `repr`s of values into them); which branch
raises is modelled exactly, the precise message text is not.
Checks of the source that test only the dynamic type of a value
(e.g. `isinstance(param, str)`) become vacuous under the typed embedding
and are noted in comments where they occur.

`Grammar.intern` is identity caching of immutable values; it has no
effect on values, only on object identity, so it has no counterpart in
this embedding of value semantics.
-/
import Mathlib

namespace Jsparagus

/-! ## Generic helpers -/

/-- Decidable equality for `Except`, needed so that concrete runs of the
embedded (exception-raising) functions can be checked with `decide`. -/
instance instDecidableEqExcept {ε α : Type} [DecidableEq ε] [DecidableEq α] :
    DecidableEq (Except ε α)
  | .ok a, .ok b =>
      if h : a = b then .isTrue (by rw [h]) else .isFalse (by intro hc; cases hc; exact h rfl)
  | .ok _, .error _ => .isFalse (by intro h; cases h)
  | .error _, .ok _ => .isFalse (by intro h; cases h)
  | .error a, .error b =>
      if h : a = b then .isTrue (by rw [h]) else .isFalse (by intro hc; cases hc; exact h rfl)

/-- Association-list lookup (insertion-ordered Python `dict` access). -/
def alookup {α β : Type} [DecidableEq α] (k : α) : List (α × β) → Option β
  | [] => none
  | (a, b) :: rest => if a = k then some b else alookup k rest

/-- Ordered-set insertion: `OrderedSet.add` keeps the first occurrence
and appends a new element at the end. -/
def insertIfAbsent {α : Type} [DecidableEq α] (x : α) (l : List α) : List α :=
  if x ∈ l then l else l ++ [x]

/-- Order-preserving deduplication, keeping first occurrences: the effect
of building an `OrderedFrozenSet` from a list. -/
def odedup {α : Type} [DecidableEq α] (l : List α) : List α :=
  l.foldl (fun acc x => insertIfAbsent x acc) []

/-! ## Core data model (`jsparagus/grammar.py`)

`Nt(name, args)` is a nonterminal invocation: `name` is a string or an
`InitNt`, `args` is a tuple of `(parameter-name, value)` pairs where each
value is a boolean or a `Var(name)` reference to an enclosing parameter.
`InitNt(goal)` wraps a goal `Nt`.  In this embedding the goal of an
`InitNt` is `NtStr`, an `Nt` whose head name is a plain string — the only
form the pipeline ever builds (an `InitNt` wrapping an `Nt` whose own name
is again an `InitNt` is not representable here). -/

/-- Argument value of a parameterized nonterminal: a boolean flag or a
`Var` passing an enclosing parameter through. -/
inductive NtArgVal where
  | b : Bool → NtArgVal
  | var : String → NtArgVal
deriving DecidableEq, Repr

/-- A nonterminal invocation whose head name is a plain string
(`Nt(str, args)` in the source). -/
structure NtStr where
  name : String
  args : List (String × NtArgVal)
deriving DecidableEq, Repr

/-- The name field of an `Nt`: a string or an `InitNt(goal)`. -/
inductive NtName where
  | str : String → NtName
  | init : NtStr → NtName
deriving DecidableEq, Repr

/-- A nonterminal invocation `Nt(name, args)` in full generality. -/
structure NtE where
  name : NtName
  args : List (String × NtArgVal)
deriving DecidableEq, Repr

/-- View an `NtStr` as a general `NtE`. -/
def ntEOfStr (g : NtStr) : NtE := ⟨.str g.name, g.args⟩

/-- Body element of a production: terminal string, nonterminal reference,
`Optional(inner)`, `LookaheadRule(set, positive)`, the `ErrorToken`
singleton, or (in the annotated-notation layer only) an error-recovery
marker `ErrorSymbol(code)`.  The lookahead token set is kept as a list
here; `grammar.py`'s validator never inspects it. -/
inductive Element where
  | term : String → Element
  | nt : NtE → Element
  | opt : Element → Element
  | lookahead : List String → Bool → Element
  | errorTok : Element
  | errorSymbol : String → Element
deriving DecidableEq, Repr

/-- Reduce expression: an integer stack reference, `CallMethod(method,
args)`, `None`, or `Some(inner)`.  Integer references are `Int`, as in
Python, so that a negative reference is representable. -/
inductive RExpr where
  | ref : Int → RExpr
  | call : String → List RExpr → RExpr
  | noneE : RExpr
  | someE : RExpr → RExpr

/-- Reduce action of a production: a reduce expression or the special
`'accept'` action (which the source stores as a string and never nests
inside an expression). -/
inductive Action where
  | expr : RExpr → Action
  | accept : Action

mutual
/-- Boolean equality on reduce expressions (needed because `deriving
DecidableEq` does not handle the nested `List RExpr`). -/
def RExpr.beq : RExpr → RExpr → Bool
  | .ref a, .ref b => a == b
  | .call m a, .call m' b => m == m' && RExpr.beqList a b
  | .noneE, .noneE => true
  | .someE a, .someE b => RExpr.beq a b
  | _, _ => false

/-- Pointwise `RExpr.beq` on lists. -/
def RExpr.beqList : List RExpr → List RExpr → Bool
  | [], [] => true
  | a :: as, b :: bs => RExpr.beq a b && RExpr.beqList as bs
  | _, _ => false
end

mutual
/-- Soundness and completeness of `RExpr.beq`: the component of the
`DecidableEq RExpr` instance below (a `def`, as instance material). -/
def RExpr.beq_iff : ∀ a b : RExpr, RExpr.beq a b = true ↔ a = b
  | .ref _, .ref _ => by simp [RExpr.beq]
  | .ref _, .call _ _ | .ref _, .noneE | .ref _, .someE _ => by simp [RExpr.beq]
  | .call _ _, .ref _ | .call _ _, .noneE | .call _ _, .someE _ => by simp [RExpr.beq]
  | .call m a, .call m' b => by simp [RExpr.beq, RExpr.beqList_iff a b]
  | .noneE, .ref _ | .noneE, .call _ _ | .noneE, .someE _ => by simp [RExpr.beq]
  | .noneE, .noneE => by simp [RExpr.beq]
  | .someE a, .someE b => by simp [RExpr.beq, RExpr.beq_iff a b]
  | .someE _, .ref _ | .someE _, .call _ _ | .someE _, .noneE => by simp [RExpr.beq]

/-- List version of `RExpr.beq_iff`. -/
def RExpr.beqList_iff : ∀ a b : List RExpr, RExpr.beqList a b = true ↔ a = b
  | [], [] => by simp [RExpr.beqList]
  | [], _ :: _ => by simp [RExpr.beqList]
  | _ :: _, [] => by simp [RExpr.beqList]
  | a :: as, b :: bs => by
      simp [RExpr.beqList, RExpr.beq_iff a b, RExpr.beqList_iff as bs]
end

instance : DecidableEq RExpr := fun a b =>
  decidable_of_iff (RExpr.beq a b = true) (RExpr.beq_iff a b)

instance : DecidableEq Action := fun a b =>
  match a, b with
  | .expr x, .expr y =>
      if h : x = y then .isTrue (by rw [h]) else .isFalse (by intro hc; cases hc; exact h rfl)
  | .expr _, .accept => .isFalse (by intro h; cases h)
  | .accept, .expr _ => .isFalse (by intro h; cases h)
  | .accept, .accept => .isTrue rfl

/-- A production: body, reduce action, and an optional condition
`(parameter, boolean)` gating its availability. -/
structure Production where
  body : List Element
  action : Action
  condition : Option (String × Bool)
deriving DecidableEq

/-- Definition of one nonterminal family after validation: formal
parameter names plus the list of productions. -/
structure NtDef where
  params : List String
  rhs_list : List Production
deriving DecidableEq

/-! ## Lookahead-restriction algebra (`grammar.py` lines 748-770)

A `LookaheadRule(set, positive)` allows exactly the terminals in `set`
(positive) or exactly the terminals outside `set` (negative); `None`
means no restriction.  Token sets are finite sets of strings; the
source's `OrderedFrozenSet` ordering is irrelevant to this algebra,
which only uses `∈`, `&`, `-` and `|`. -/

/-- A lookahead restriction: token set plus polarity. -/
structure LookaheadRule where
  set : Finset String
  positive : Bool
deriving DecidableEq

/-- Embedding of `lookahead_contains(rule, t)`: `True` if the restriction
`rule` (possibly `None`) allows the terminal `t`. -/
def lookahead_contains (rule : Option LookaheadRule) (t : String) : Bool :=
  match rule with
  | none => true
  | some r => if r.positive then decide (t ∈ r.set) else decide (t ∉ r.set)

/-- Embedding of `lookahead_intersect(a, b)`: a single rule enforcing
both `a` and `b`. -/
def lookahead_intersect (a b : Option LookaheadRule) : Option LookaheadRule :=
  match a, b with
  | none, b => b
  | some a, none => some a
  | some a, some b =>
      if a.positive then
        if b.positive then some ⟨a.set ∩ b.set, true⟩
        else some ⟨a.set \ b.set, true⟩
      else
        if b.positive then some ⟨b.set \ a.set, true⟩
        else some ⟨a.set ∪ b.set, false⟩

/-! ## Concrete elements (`grammar.py` lines 661-664) -/

/-- Embedding of `is_concrete_element(e)`: true if parsing the element
pushes a value to the parser stack — everything except a
`LookaheadRule` and the `ErrorToken` singleton. -/
def is_concrete_element (e : Element) : Bool :=
  match e with
  | .lookahead _ _ => false
  | .errorTok => false
  | _ => true

/-! ## Annotated-notation desugarer (`js_parser/parse_esgrammar.py`)

`ESGrammarBuilder` receives, per left-hand side, a list of right-hand
sides `(body, reducer-or-None, condition-or-None)`.  The left-hand side
as built by `nt_lhs_no_params` / `nt_lhs_with_params` is always a pair
`(name, parameter-names)`.

The `Production` class used by this layer (with a `reducer` attribute)
and the `ErrorSymbol` marker come from the `grammar` module version this
file imports, which is not under `src/`.  `EsProduction` below is
modelled from the spec: a production fragment record carrying a body, a
reducer expression and an optional condition, with `copy_with`-style
functional update; the recovery marker is the `Element.errorSymbol`
constructor carrying its recovery-code tag. -/

/-- Production record of the annotated-notation layer. -/
structure EsProduction where
  body : List Element
  reducer : RExpr
  condition : Option (String × Bool)
deriving DecidableEq

/-- Right-hand side fragment as delivered by the notation parser:
`(rhs, reducer, ifdef)` from `rhs_line`. -/
structure EsRhs where
  body : List Element
  reducer : Option RExpr
  condition : Option (String × Bool)

/-- List-based `String.endsWith`, modelling `re.search` of an
end-anchored literal pattern `X$`. -/
def strEndsWith (s suffix : String) : Bool :=
  suffix.data.isSuffixOf s.data

/-- Compilation of the regex `r'(Expression|^(Array|Object)?Literal)$'`
under `re.search`: either `Expression` occurs immediately before the end
of the string (i.e. the string ends with it), or the whole string is
`(Array|Object)?Literal` (the inner `^` anchors that alternative). -/
def productionGroup1 (s : String) : Bool :=
  strEndsWith s "Expression" || s == "Literal" || s == "ArrayLiteral" || s == "ObjectLiteral"

/-- Compilation of the regex
`r'(Statement|Declaration|^StatementListItem|^ModuleItem)$'` under
`re.search`. -/
def productionGroup2 (s : String) : Bool :=
  strEndsWith s "Statement" || strEndsWith s "Declaration" ||
    s == "StatementListItem" || s == "ModuleItem"

/-- Compilation of the regex `r'Method(Definition)?$'` under `re.search`:
the string ends with `Method` or with `MethodDefinition`. -/
def productionGroup3 (s : String) : Bool :=
  strEndsWith s "Method" || strEndsWith s "MethodDefinition"

/-- The fixed `PRODUCTION_GROUPS` table, as match predicates. -/
def PRODUCTION_GROUPS : List (String → Bool) :=
  [productionGroup1, productionGroup2, productionGroup3]

/-- Name `re.search` is applied to for a right-hand-side element in
`is_matched_pair`: a terminal is its own string; an `Nt` is replaced by
its name.  Any other element (and an `Nt` whose name is an `InitNt`)
is not a string, so `re.search` would raise `TypeError`; those return
`none` here. -/
def elem_match_name : Element → Option String
  | .term s => some s
  | .nt e => match e.name with
      | .str v => some v
      | .init _ => none
  | _ => none

/-- Embedding of `is_matched_pair(lhs_name, rhs_name)` on plain strings:
some production group matches both sides. -/
def is_matched_pair (lhs_name rhs_name : String) : Bool :=
  PRODUCTION_GROUPS.any fun g => g lhs_name && g rhs_name

/-- Embedding of `is_matched_pair(lhs_name, rhs_element)` including the
source's failure mode: if the element is not a string or `Nt`-with-string
name, `re.search(group, rhs_element)` raises `TypeError` — but only once
some group has already matched `lhs_name` (the conjunction in the source
short-circuits), otherwise the loop falls through and returns `False`. -/
def is_matched_pair_elem (lhs_name : String) (e : Element) : Except String Bool :=
  match elem_match_name e with
  | some n => .ok (is_matched_pair lhs_name n)
  | none =>
      if PRODUCTION_GROUPS.any fun g => g lhs_name then
        .error "TypeError: expected string or bytes-like object"
      else .ok false

/-- Embedding of `ESGrammarBuilder.default_reducer(lhs, i, body,
is_sole_production)`.  `lhs` is the `(name, params)` pair; the source's
`isinstance(lhs, tuple)` test is always true for it. -/
def default_reducer (lhs : String × List String) (i : Nat) (body : List Element)
    (is_sole_production : Bool) : Except String RExpr :=
  let nt_name := lhs.1
  let nargs := (body.filter is_concrete_element).length
  let matchedE : Except String Bool :=
    match body with
    | [e] => if nargs == 1 then is_matched_pair_elem nt_name e else .ok false
    | _ => .ok false
  match matchedE with
  | .error msg => .error msg
  | .ok matched =>
      if matched then .ok (.ref 0)
      else .ok (.call (if is_sole_production then nt_name else nt_name ++ " " ++ toString i)
          ((List.range nargs).map fun k => .ref (Int.ofNat k)))

/-- Embedding of `ESGrammarBuilder.to_production(lhs, i, rhs,
is_sole_production)`. -/
def to_production (lhs : String × List String) (i : Nat) (rhs : EsRhs)
    (is_sole_production : Bool) : Except String EsProduction := do
  match rhs.reducer with
  | some r => return ⟨rhs.body, r, rhs.condition⟩
  | none => do
      let r ← default_reducer lhs i rhs.body is_sole_production
      return ⟨rhs.body, r, rhs.condition⟩

/-- Embedding of `ESGrammarBuilder.needs_asi(lhs, p)`: ASI applies unless
the left-hand side is the synthesized `ForLexicalDeclaration` variant,
and only to productions of more than one element ending in the literal
terminal `;`. -/
def needs_asi (lhs : String × List String) (p : EsProduction) : Bool :=
  !(lhs.1 == "ForLexicalDeclaration") && decide (1 < p.body.length) &&
    (p.body.getLast? == some (.term ";"))

/-- Embedding of `ESGrammarBuilder.apply_asi(p,
reducer_was_autogenerated)`: returns the strict production plus the
ASI fallback whose trailing semicolon is replaced by an `ErrorSymbol`.
The source `assert`s that the reducer is a `CallMethod`; a failing
assertion is an error here. -/
def apply_asi (p : EsProduction) (reducer_was_autogenerated : Bool) :
    Except String (List EsProduction) :=
  match p.reducer with
  | .call method args =>
      let reducer : RExpr :=
        if reducer_was_autogenerated then .call method args.dropLast
        else .call method args
      let code :=
        if (p.body.length == 7)
            && (p.body[0]? == some (.term "do"))
            && (p.body[2]? == some (.term "while"))
            && (p.body[3]? == some (.term "("))
            && (p.body[5]? == some (.term ")"))
            && (p.body[6]? == some (.term ";"))
          then "do_while_asi" else "asi"
      .ok [ { p with reducer := reducer },
            { p with body := p.body.dropLast ++ [.errorSymbol code], reducer := reducer } ]
  | _ => .error "assertion failed: isinstance(p.reducer, grammar.CallMethod)"

/-- Embedding of the production-assembly loop in
`ESGrammarBuilder.nt_def`: each right-hand side becomes a production
(with a default reducer when none was given), ASI-eligible productions
are expanded by `apply_asi`, the rest are appended unchanged. -/
def es_nt_def_go (lhs : String × List String) (is_sole_production : Bool) :
    Nat → List EsRhs → Except String (List EsProduction)
  | _, [] => .ok []
  | i, rhs :: rest => do
      let reducer_was_autogenerated := rhs.reducer.isNone
      let p ← to_production lhs i rhs is_sole_production
      let here ← if needs_asi lhs p then apply_asi p reducer_was_autogenerated else .ok [p]
      let more ← es_nt_def_go lhs is_sole_production (i + 1) rest
      .ok (here ++ more)

/-- Production list built by `ESGrammarBuilder.nt_def(nt_type, lhs, eq,
rhs_list)` (the `NtDef` wrapper and grammar-kind marker are handled by
`finish_grammar`). -/
def es_nt_def_productions (lhs : String × List String) (rhs_list : List EsRhs) :
    Except String (List EsProduction) :=
  es_nt_def_go lhs (rhs_list.length == 1) 0 rhs_list

/-- The do-while production shape as the spec words it: seven elements
`'do' <stmt> 'while' '(' <expr> ')' ';'` with the statement and
expression slots arbitrary. -/
def DoWhileShape (body : List Element) : Prop :=
  ∃ s e, body = [.term "do", s, .term "while", .term "(", e, .term ")", .term ";"]

/-! ## Rust backend identifier conversion (`jsparagus/emit.py` lines 200-233)

`to_snek_case` is two `re.sub` passes followed by `.lower()`:

    s1 = re.sub('(.)([A-Z][a-z]+)', r'\1_\2', ident)
    return re.sub('([a-z0-9])([A-Z])', r'\1_\2', s1).lower()

Both passes are compiled here as left-to-right scanners over the
character list.  `re.sub` consumes each non-overlapping match entirely
and resumes after it, so the first pass, after inserting `_` before an
`[A-Z][a-z]+` run, skips the rest of that lowercase run; `snekSub1`
models this with an explicit lowercase-run skip.  The `fuel` argument
(initially the list length, strictly more than consumed at every step)
only makes the recursion structurally evident; the `0`-fuel branch is
never reached from `to_snek_case`.  Character classes `[A-Z]`, `[a-z]`,
`[0-9]` are ASCII ranges also under Python's Unicode regex semantics;
`.` matches anything except a newline.  `.lower()` is mapped over
characters, which agrees with Python on the ASCII identifiers this
backend handles. -/

/-- First `re.sub` pass of `to_snek_case`: insert `_` between any
non-newline character and an `[A-Z][a-z]+` run, consuming the run. -/
def snekSub1 : Nat → List Char → List Char
  | _, [] => []
  | 0, l => l
  | f + 1, c1 :: t =>
    match t with
    | c2 :: c3 :: rest =>
      if c1 ≠ '\n' && c2.isUpper && c3.isLower then
        c1 :: '_' :: c2 :: c3 ::
          (rest.takeWhile Char.isLower ++ snekSub1 f (rest.dropWhile Char.isLower))
      else c1 :: snekSub1 f t
    | _ => c1 :: snekSub1 f t

/-- Second `re.sub` pass of `to_snek_case`: insert `_` between a
lowercase letter or digit and an uppercase letter, consuming both. -/
def snekSub2 : List Char → List Char
  | [] => []
  | [c] => [c]
  | c1 :: c2 :: rest =>
    if (c1.isLower || c1.isDigit) && c2.isUpper then c1 :: '_' :: c2 :: snekSub2 rest
    else c1 :: snekSub2 (c2 :: rest)

/-- Embedding of `RustParserWriter.to_snek_case(ident)`. -/
def to_snek_case (ident : String) : String :=
  String.mk ((snekSub2 (snekSub1 ident.data.length ident.data)).map Char.toLower)

/-- Python's `str.capitalize` on a character list: first character
uppercased, the rest lowercased (ASCII model). -/
def capitalizeChars : List Char → List Char
  | [] => []
  | c :: rest => c.toUpper :: rest.map Char.toLower

/-- Python's `str.split(sep)` for a single-character separator, on
character lists: splitting at every occurrence, keeping empty pieces
(`'a__b'.split('_') == ['a', '', 'b']`). -/
def splitOnChar (c : Char) : List Char → List (List Char)
  | [] => [[]]
  | x :: rest =>
      let r := splitOnChar c rest
      if x = c then [] :: r
      else
        match r with
        | h :: t => (x :: h) :: t
        | [] => [[x]]

/-- Python's `str.islower`: at least one cased character and no cased
character uppercase (ASCII model, where the cased characters are the
letters). -/
def pyIsLower (s : String) : Bool :=
  s.data.any Char.isAlpha && s.data.all fun c => !c.isUpper

/-- Embedding of `RustParserWriter.to_camel_case(ident)`: if the
identifier contains `_`, capitalize each `_`-separated word and
concatenate; else capitalize an all-lowercase identifier; else return
it unchanged. -/
def to_camel_case (ident : String) : String :=
  if ident.data.contains '_' then
    String.mk ((splitOnChar '_' ident.data).map capitalizeChars).flatten
  else if pyIsLower ident then String.mk (capitalizeChars ident.data)
  else ident

/-- A nonterminal identity as seen by the Rust backend: an `Nt` (its
name a plain string — init nonterminals never appear in goto rows, and
a non-string name would crash `to_snek_case` in the source) or a bare
string. -/
inductive EmitIdent where
  | ntI : NtStr → EmitIdent
  | strI : String → EmitIdent
deriving DecidableEq, Repr

/-- Python truthiness of a nonterminal argument value, as used by the
`if value` filter in `nonterminal_to_snake`: booleans are themselves,
a `Var` namedtuple is a nonempty tuple and hence truthy. -/
def ntArgTruthy : NtArgVal → Bool
  | .b v => v
  | .var _ => true

/-- Embedding of `RustParserWriter.nonterminal_to_snake(ident)`. -/
def nonterminal_to_snake : EmitIdent → String
  | .ntI ident =>
      to_snek_case ident.name ++
        String.join ((ident.args.filter fun pr => ntArgTruthy pr.2).map
          fun pr => "_" ++ to_snek_case pr.1)
  | .strI ident => to_snek_case ident

/-- Embedding of `RustParserWriter.nonterminal_to_camel(nt)`. -/
def nonterminal_to_camel (nt : EmitIdent) : String :=
  to_camel_case (nonterminal_to_snake nt)

/-- Rendering of an argument value inside error messages (Python
`repr`-style). -/
def ntArgValToString : NtArgVal → String
  | .b true => "True"
  | .b false => "False"
  | .var v => "Var(" ++ v ++ ")"

/-- Rendering of a nonterminal identity inside error messages. -/
def emitIdentToString : EmitIdent → String
  | .strI s => s
  | .ntI g =>
      "Nt(" ++ g.name ++
        String.join (g.args.map fun pr => ", " ++ pr.1 ++ "=" ++ ntArgValToString pr.2) ++ ")"

/-- The `check_camel_case` error message: `"{} and {} have the same
camel-case spelling ({})"` naming both colliding identities. -/
def camelCollisionMsg (a b : EmitIdent) (cc : String) : String :=
  emitIdentToString a ++ " and " ++ emitIdentToString b ++
    " have the same camel-case spelling (" ++ cc ++ ")"

/-- Loop of `RustParserWriter.check_camel_case` with its `seen`
dictionary made explicit. -/
def check_camel_case_go : List EmitIdent → List (String × EmitIdent) → Except String Unit
  | [], _ => .ok ()
  | nt :: rest, seen =>
      let cc := nonterminal_to_camel nt
      match alookup cc seen with
      | some prev => .error (camelCollisionMsg prev nt cc)
      | none => check_camel_case_go rest ((cc, nt) :: seen)

/-- Embedding of `RustParserWriter.check_camel_case(self)` over the
backend's reachable-nonterminal list. -/
def check_camel_case (nonterminals : List EmitIdent) : Except String Unit :=
  check_camel_case_go nonterminals []

/-! ## Final assembly (`js_parser/parse_esgrammar.py`, `finish_grammar`)

`finish_grammar(nt_defs, goals, synthetic_terminals, single_grammar)`
receives the desugarer's output triples `(name, eq, NtDef-or-rhs-list)`,
where `eq` is the grammar-kind marker (`":"` syntactic, `"::"` lexical,
…), picks the grammar the goals belong to, and assembles the arguments
of the `Grammar` constructor.  The embedding stops at those assembled
arguments (`AssembledGrammarArgs`): the `grammar.Grammar` version this
file calls takes a `synthetic_terminals` keyword that the `grammar.py`
under `src/` does not have, so the constructor call itself belongs to a
module version that is not part of this source tree.

Two behaviors worth noting, both modelled exactly:

* `hack_production` raises on **every** backtick-quoted element: either
  the `ValueError` for a malformed symbol, or — for a well-formed one —
  a `TypeError`, because `p[i] = token` item-assigns into a `Production`,
  which supports no item assignment (and the chained assignment runs
  `p[i] = …` first).  Consequently `terminal_set` stays empty and the
  final terminal/nonterminal collision loop never has anything to check.
* The fold into `variable_terminals` of a nonterminal whose marker
  differs from the selected grammar happens only when the *selected*
  marker is `":"`; when a lexical grammar is selected, differing
  nonterminals fall through and stay ordinary nonterminals. -/

/-- The newer-grammar `NtDef` as built by the desugarer's `nt_def`:
parameter names, production list, and the optional type annotation
(which `finish_grammar` never inspects). -/
structure EsNtDef where
  params : List String
  productions : List EsProduction
  nt_type : Option String
deriving DecidableEq

/-- Third component of a desugarer output triple: an `NtDef` or a plain
production list (the legacy shape; its elements are `Production`s here
by typing — the source's `isinstance` check raising `"ifdef in
non-function-call context"` has no representable failing input). -/
inductive EsRawDef where
  | ntDefD : EsNtDef → EsRawDef
  | listD : List EsProduction → EsRawDef
deriving DecidableEq

/-- Arguments assembled by `finish_grammar` for the `Grammar`
constructor call. -/
structure AssembledGrammarArgs where
  nonterminals : List (String × EsRawDef)
  goals : List String
  variable_terminals : List String
deriving DecidableEq

/-- Duplicate-definition check building the `nt_grammars` map. -/
def build_nt_grammars : List (String × String × EsRawDef) → List (String × String) →
    Except String (List (String × String))
  | [], acc => .ok acc
  | (name, eq, _) :: rest, acc =>
      if (alookup name acc).isSome then
        .error "duplicate definitions for nonterminal"
      else build_nt_grammars rest (acc ++ [(name, eq)])

/-- Marker of each goal, looked up in `nt_grammars`; a missing goal is a
`KeyError` in the source's generator expression. -/
def goalMarkers (ntg : List (String × String)) : List String → Except String (List String)
  | [] => .ok []
  | g :: rest =>
      match alookup g ntg with
      | none => .error "KeyError: goal nonterminal has no definition"
      | some m => do
          let ms ← goalMarkers ntg rest
          .ok (m :: ms)

/-- Embedding of `hack_production(p)`: scanning the body for
backtick-quoted elements; the first one found raises (see the section
comment). -/
def hack_production : List Element → Except String Unit
  | [] => .ok ()
  | .term s :: rest =>
      if s.data.take 1 = ['`'] then
        if s.length < 3 || s.data.getLast? != some '`' then
          .error "Unrecognized grammar symbol"
        else
          .error "TypeError: Production object does not support item assignment"
      else hack_production rest
  | _ :: rest => hack_production rest

/-- Run `hack_production` over each production of a legacy rhs list. -/
def hack_productions : List EsProduction → Except String Unit
  | [] => .ok ()
  | p :: rest => do
      hack_production p.body
      hack_productions rest

/-- A definition triple is folded into the variable-terminal set instead
of kept as a nonterminal exactly under this condition (note the
`sel == ":"` conjunct: only a selected *syntactic* grammar folds). -/
def foldedOut (single : Bool) (sel : String) (eq : String) : Bool :=
  single && (eq != sel) && (sel == ":")

/-- Main assembly loop of `finish_grammar` over the definition
triples. -/
def assemble_nts (single : Bool) (sel : String) :
    List (String × String × EsRawDef) → List (String × EsRawDef) → List String →
    Except String (List (String × EsRawDef) × List String)
  | [], nts, vts => .ok (nts, vts)
  | (name, eq, d) :: rest, nts, vts =>
      if foldedOut single sel eq then
        assemble_nts single sel rest nts (insertIfAbsent name vts)
      else
        match d with
        | .ntDefD _ => assemble_nts single sel rest (nts ++ [(name, d)]) vts
        | .listD ps => do
            hack_productions ps
            if (alookup name nts).isSome then
              .error "unsupported: multiple definitions for nt"
            else assemble_nts single sel rest (nts ++ [(name, d)]) vts

/-- Embedding of `finish_grammar(nt_defs, goals, synthetic_terminals,
single_grammar)` up to the assembled `Grammar` arguments. -/
def finish_grammar (nt_defs : List (String × String × EsRawDef)) (goals : List String)
    (single_grammar : Bool) : Except String AssembledGrammarArgs := do
  let nt_grammars ← build_nt_grammars nt_defs []
  if goals.isEmpty then
    .error "no goal nonterminals specified"
  else do
    let sel ←
      if single_grammar then do
        let markers ← goalMarkers nt_grammars goals
        match odedup markers with
        | [] => .error "assertion failed: len(selected_grammars) != 0"
        | [m] => pure m
        | _ :: _ :: _ =>
            .error "all goal nonterminals must be part of the same grammar"
      else pure ""
    let (nts, vts) ← assemble_nts single_grammar sel nt_defs [] []
    .ok ⟨nts, goals, vts⟩

/-- Marker of a nonterminal in the raw triple list (first occurrence),
as used in the theorems below. -/
def lookupEq (nt_defs : List (String × String × EsRawDef)) (name : String) : Option String :=
  alookup name (nt_defs.map fun t => (t.1, t.2.1))

/-- Whether an `Except` run raised. -/
def isErr {ε α : Type} : Except ε α → Bool
  | .ok _ => false
  | .error _ => true

/-! ## Grammar construction (`jsparagus/grammar.py`, `Grammar.__init__`)

`Grammar.__init__(nonterminals, goal_nts, variable_terminals, type_info)`
normalizes and validates a raw nonterminal mapping.  The embedding
follows the source's phases in order: key-kind and parameter-list pass
(`build_nt_params`), per-key validation and copying (`validate_nt`,
`check_nt_key`, `copy_nt_def`, `copy_rhs`, `check_reduce_action`,
`validate_element` — here split into `validate_atom` for the
terminal/nonterminal core that `Optional` reuses), the type-info step,
and init-nonterminal synthesis.  The insertion-ordered `nonterminals`
dict is an association list; the `all_terminals` ordered set collected
by `validate_element` is threaded through explicitly.  The external
type-inference collaborator (`types.infer_types`, out of scope per the
spec) is a function parameter `inferTypes`, invoked exactly when
`type_info` is `None`.

Unrepresentable-by-typing cases, each noted where it occurs: nested
`'accept'` inside a reduce expression, non-string `NtDef.params`
entries, non-list right-hand-side containers.  A goal that is an
`InitNt` key hits an unbound (or stale, if a previous loop iteration
bound it) local `ok` in the source; this embedding models it as the
`NameError` of the common case.  An `Nt` goal whose name is itself an
`InitNt` is not representable here (`NtStr` goals only), and the
embedding reports an error on that path. -/

/-- Key of the raw `nonterminals` dict: a string, an `InitNt`
(early-pipeline keys), or an `Nt` (later-pipeline keys). -/
inductive NtKey where
  | s : String → NtKey
  | initK : NtStr → NtKey
  | ntK : NtE → NtKey
deriving DecidableEq, Repr

/-- A goal as passed in `goal_nts`: a string, an `Nt`, or (via the
default-goal rule picking the first dict key) an `InitNt`. -/
inductive Goal where
  | s : String → Goal
  | nt : NtE → Goal
  | initG : NtStr → Goal
deriving DecidableEq, Repr

/-- A raw right-hand side: a bare list of symbols (desugared by
`copy_rhs` into a `Production` with a default action) or a
`Production`. -/
inductive RawRhs where
  | bare : List Element → RawRhs
  | prod : Production → RawRhs
deriving DecidableEq

/-- A raw value of the `nonterminals` dict: an `NtDef` (parameter list
plus raw right-hand sides) or a plain list of right-hand sides. -/
inductive RawNtDef where
  | ntDef : List String → List RawRhs → RawNtDef
  | plain : List RawRhs → RawNtDef
deriving DecidableEq

/-- The validated grammar object: nonterminal definitions (with
synthesized init nonterminals appended), the collected terminal set,
the variable-terminal set, the type information (a type parameter; the
source stores the pair `(nt_types, methods)`), and the init-nonterminal
list. -/
structure Grammar (τ : Type) where
  nonterminals : List (NtKey × NtDef)
  terminals : List String
  variable_terminals : List String
  typeInfo : τ
  init_nts : List NtE
deriving DecidableEq

/-- Python `str.isidentifier` start character (ASCII model). -/
def pyIsIdentStart (c : Char) : Bool := c.isAlpha || c == '_'

/-- Python `str.isidentifier` continuation character (ASCII model). -/
def pyIsIdentCont (c : Char) : Bool := c.isAlphanum || c == '_'

/-- Python `str.isidentifier` (ASCII model). -/
def pyIsIdentifier (s : String) : Bool :=
  match s.data with
  | [] => false
  | c :: rest => pyIsIdentStart c && rest.all pyIsIdentCont

/-- Python `str.partition(' ')` when a space exists: the parts before
and after the first space; `none` when the string has no space. -/
def splitAtFirstSpace : List Char → Option (List Char × List Char)
  | [] => none
  | c :: rest =>
      if c = ' ' then some ([], rest)
      else (splitAtFirstSpace rest).map fun p => (c :: p.1, p.2)

/-- The method-name check of `check_reduce_action`: an identifier, or
`"Name N"` — an identifier, one space, and a nonempty digit string. -/
def checkMethodName (m : String) : Except String Unit :=
  if pyIsIdentifier m then .ok ()
  else
    match splitAtFirstSpace m.data with
    | some (name, pn) =>
        if pyIsIdentifier (String.mk name) && !pn.isEmpty && pn.all Char.isDigit then .ok ()
        else .error "invalid method name (not an identifier)"
    | none => .error "invalid method name (not an identifier)"

/-- Number of concrete elements of a body, the range bound for integer
reduce references. -/
def concreteLen (body : List Element) : Nat :=
  (body.filter is_concrete_element).length

mutual
/-- Embedding of `check_reduce_action(nt, i, rhs, action)` on a reduce
expression (the `'accept'` action is dispatched before this is called,
as in `copy_rhs`; a nested `'accept'` — the source's final `TypeError`
branch — is not representable in `RExpr`). -/
def check_reduce_action (cl : Nat) : RExpr → Except String Unit
  | .ref n =>
      if 0 ≤ n ∧ n < (cl : Int) then .ok ()
      else .error "element number out of range"
  | .call m args => do
      checkMethodName m
      check_reduce_action_args cl args
  | .noneE => .ok ()
  | .someE inner => check_reduce_action cl inner

/-- `check_reduce_action` over `CallMethod` argument lists. -/
def check_reduce_action_args (cl : Nat) : List RExpr → Except String Unit
  | [] => .ok ()
  | a :: rest => do
      check_reduce_action cl a
      check_reduce_action_args cl rest
end

/-- Membership of an `Nt`'s head name among the dict keys
(`e.name in nonterminals`): a string name matches a string key, an
`InitNt` name matches an `InitNt` key, and nothing matches an `Nt`
key. -/
def nameIsKey (keys : List NtKey) (n : NtName) : Bool :=
  keys.any fun k =>
    match k, n with
    | .s v, .str m => v == m
    | .initK g, .init g2 => g == g2
    | _, _ => false

/-- The definedness test of `validate_element` for an `Nt` reference:
`e in nonterminals or e.name in nonterminals`. -/
def ntDefinedAsKey (keys : List NtKey) (e : NtE) : Bool :=
  keys.contains (NtKey.ntK e) || nameIsKey keys e.name

/-- Core of `validate_element` on a terminal string or `Nt` reference:
a string naming a known nonterminal family becomes the `Nt`, an unknown
string is recorded as a terminal, an `Nt` reference is checked for
definedness, argument-name agreement and `Var` scoping.  (Only called
on `term`/`nt`; other element kinds cannot reach it.) -/
def validate_atom (keys : List NtKey) (ntParams : List (NtName × List String)) :
    Element → List String → List String → Except String (Element × List String)
  | .term s, _, terms =>
      (match alookup (NtName.str s) ntParams with
       | some ps =>
           if ps = [] then .ok (.nt ⟨.str s, []⟩, terms)
           else .error "missing parameters for nonterminal"
       | none => .ok (.term s, insertIfAbsent s terms))
  | .nt e, ctx, terms =>
      if ntDefinedAsKey keys e = false then
        .error "unrecognized nonterminal"
      else do
        (match alookup e.name ntParams with
         | some ps =>
             if e.args.map Prod.fst = ps then pure ()
             else .error "wrong arguments passed to nonterminal"
         | none => pure ())
        if e.args.all (fun pr => match pr.2 with | .var v => ctx.contains v | .b _ => true) then
          .ok (.nt e, terms)
        else .error "undefined variable in nonterminal arguments"
  | _, _, _ => .error "validate_atom applied off its domain"

/-- Embedding of `validate_element(nt, i, j, e, context_params)` with
the `all_terminals` accumulator made explicit. -/
def validate_element (keys : List NtKey) (ntParams : List (NtName × List String)) :
    Element → List String → List String → Except String (Element × List String)
  | .term s, ctx, terms => validate_atom keys ntParams (.term s) ctx terms
  | .nt e, ctx, terms => validate_atom keys ntParams (.nt e) ctx terms
  | .opt inner, ctx, terms =>
      (match inner with
       | .term _ => do
           let (e2, terms2) ← validate_atom keys ntParams inner ctx terms
           .ok (.opt e2, terms2)
       | .nt _ => do
           let (e2, terms2) ← validate_atom keys ntParams inner ctx terms
           .ok (.opt e2, terms2)
       | _ => .error "unrecognized element inside Optional")
  | .lookahead s p, _, terms => .ok (.lookahead s p, terms)
  | .errorTok, _, terms => .ok (.errorTok, terms)
  | .errorSymbol _, _, _ => .error "unrecognized element in production"

/-- `validate_element` over a production body, threading the terminal
accumulator left to right. -/
def validate_body (keys : List NtKey) (ntParams : List (NtName × List String)) :
    List Element → List String → List String → Except String (List Element × List String)
  | [], _, terms => .ok ([], terms)
  | e :: rest, ctx, terms => do
      let (e2, terms2) ← validate_element keys ntParams e ctx terms
      let (rest2, terms3) ← validate_body keys ntParams rest ctx terms2
      .ok (e2 :: rest2, terms3)

/-- Desugaring of a bare right-hand-side list in `copy_rhs`: a sole
value-contributing single element propagates (`action = 0`); otherwise
a method named after the key (plus the production index unless the
nonterminal has a sole production) is called.  For a non-string key the
sole-production method "name" would be the key object itself and
`check_reduce_action` would reject it as a non-string (and the
`str`-formatted variant is never an identifier), so both cases error
here. -/
def desugar_bare_rhs (nt : NtKey) (i : Nat) (sole_production : Bool) (body : List Element) :
    Except String Production :=
  let nargs := concreteLen body
  if body.length = 1 ∧ nargs = 1 then
    .ok ⟨body, .expr (.ref 0), none⟩
  else
    match nt with
    | .s v =>
        .ok ⟨body, .expr (.call (if sole_production then v else v ++ " " ++ toString i)
          ((List.range nargs).map fun k => .ref (Int.ofNat k))), none⟩
    | _ => .error "method names must be strings"

/-- The condition check of `copy_rhs`: a conditional production must
reference a declared parameter. -/
def check_condition (context_params : List String) : Option (String × Bool) →
    Except String Unit
  | none => .ok ()
  | some (param, _) =>
      if param ∈ context_params then .ok ()
      else .error "undefined parameter in conditional"

/-- The action check of `copy_rhs`: everything except the `'accept'`
action goes through `check_reduce_action`. -/
def check_production_action (body : List Element) : Action → Except String Unit
  | .accept => .ok ()
  | .expr a => check_reduce_action (concreteLen body) a

/-- Embedding of `copy_rhs(nt, i, sole_production, rhs,
context_params)`. -/
def copy_rhs (keys : List NtKey) (ntParams : List (NtName × List String)) (nt : NtKey)
    (i : Nat) (sole_production : Bool) (rhs : RawRhs) (context_params : List String)
    (terms : List String) : Except String (Production × List String) := do
  let p : Production ←
    match rhs with
    | .bare body => desugar_bare_rhs nt i sole_production body
    | .prod p => .ok p
  check_condition context_params p.condition
  check_production_action p.body p.action
  let (body2, terms2) ← validate_body keys ntParams p.body context_params terms
  .ok (⟨body2, p.action, p.condition⟩, terms2)

/-- `copy_rhs` over a right-hand-side list with the production index
counting up. -/
def copy_rhs_list (keys : List NtKey) (ntParams : List (NtName × List String)) (nt : NtKey)
    (sole_production : Bool) (context_params : List String) :
    Nat → List RawRhs → List String → Except String (List Production × List String)
  | _, [], terms => .ok ([], terms)
  | i, r :: rest, terms => do
      let (p, terms2) ← copy_rhs keys ntParams nt i sole_production r context_params terms
      let (ps, terms3) ← copy_rhs_list keys ntParams nt sole_production context_params
        (i + 1) rest terms2
      .ok (p :: ps, terms3)

/-- Embedding of `copy_nt_def(nt, nt_def, params)` (the `params`
argument is always `[]` at the call site and immediately shadowed; the
source's per-parameter `isinstance(param, str)` check is vacuous under
typing). -/
def copy_nt_def (keys : List NtKey) (ntParams : List (NtName × List String)) (nt : NtKey)
    (v : RawNtDef) (terms : List String) : Except String (NtDef × List String) :=
  let pr : List String × List RawRhs :=
    match v with
    | .ntDef ps rl => (ps, rl)
    | .plain rl => ([], rl)
  do
    let (ps2, terms2) ← copy_rhs_list keys ntParams nt (pr.2.length == 1) pr.1 0 pr.2 terms
    .ok (⟨pr.1, ps2⟩, terms2)

/-- The string-key branch of `check_nt_key`: an identifier not colliding
with a variable terminal. -/
def check_nt_key_str (variable_terminals : List String) (v : String) : Except String Unit :=
  if !pyIsIdentifier v then .error "nonterminal names must be identifiers"
  else if v ∈ variable_terminals then .error "name is both a nonterminal and a variable terminal"
  else .ok ()

/-- The `InitNt` branch of `check_nt_key`: the goal is validated like a
use (the terminal accumulator is untouched on the `Nt` path) and must
be in the goal list — compared by Python `==`, so only an `Nt` goal
entry can match. -/
def check_init_goal (keys : List NtKey) (ntParams : List (NtName × List String))
    (goal_nts : List Goal) (g : NtStr) : Except String Unit := do
  let _ ← validate_atom keys ntParams (.nt (ntEOfStr g)) [] []
  if goal_nts.contains (Goal.nt (ntEOfStr g)) then .ok ()
  else .error "nonterminal referenced by InitNt is not in the list of goals"

/-- Embedding of `check_nt_key(nt)` (the `keys_are_nt` assertion for
`Nt` keys is established by the key-kind pass of
`build_nt_params`). -/
def check_nt_key (variable_terminals : List String) (keys : List NtKey)
    (ntParams : List (NtName × List String)) (goal_nts : List Goal) :
    NtKey → Except String Unit
  | .s v => check_nt_key_str variable_terminals v
  | .initK g => check_init_goal keys ntParams goal_nts g
  | .ntK e => do
      (match e.name with
       | .str v => check_nt_key_str variable_terminals v
       | .init g => check_init_goal keys ntParams goal_nts g)
      if e.args.all (fun pr => match pr.2 with | .b _ => true | .var _ => false) then .ok ()
      else .error "expected tuple((str, bool)) args"

/-- The init-production form check of `validate_nt` for `InitNt` keys:
the value must be an `NtDef` whose raw right-hand-side list is one of
the three accepted shapes. -/
def init_form_ok (g : NtStr) (v : RawNtDef) : Except String Unit :=
  match v with
  | .plain _ => .error "key must map to value of type NtDef"
  | .ntDef _ rl =>
      if rl = [RawRhs.prod ⟨[.nt (ntEOfStr g)], .accept, none⟩] ∨
         rl = [RawRhs.prod ⟨[.opt (.nt (ntEOfStr g))], .accept, none⟩] ∨
         rl = [RawRhs.prod ⟨[], .accept, none⟩,
               RawRhs.prod ⟨[.nt (ntEOfStr g)], .accept, none⟩] then
        .ok ()
      else .error "init nonterminal is not one of the expected forms"

/-- Embedding of `validate_nt(nt, nt_def)`. -/
def validate_nt (variable_terminals : List String) (keys : List NtKey)
    (ntParams : List (NtName × List String)) (goal_nts : List Goal) (nt : NtKey)
    (v : RawNtDef) (terms : List String) : Except String (NtDef × List String) := do
  check_nt_key variable_terminals keys ntParams goal_nts nt
  (match nt with
   | .initK g => init_form_ok g v
   | _ => .ok ())
  copy_nt_def keys ntParams nt v terms

/-- The main validation loop over the `nonterminals` dict. -/
def validate_all (variable_terminals : List String) (keys : List NtKey)
    (ntParams : List (NtName × List String)) (goal_nts : List Goal) :
    List (NtKey × RawNtDef) → List String →
    Except String (List (NtKey × NtDef) × List String)
  | [], terms => .ok ([], terms)
  | (k, v) :: rest, terms => do
      let (d, terms2) ← validate_nt variable_terminals keys ntParams goal_nts k v terms
      let (ds, terms3) ← validate_all variable_terminals keys ntParams goal_nts rest terms2
      .ok ((k, d) :: ds, terms3)

/-- Name and declared parameter list contributed by one dict key to
`nt_params`, with the key-kind consistency check. -/
def key_name_and_params (keys_are_nt : Bool) (k : NtKey) (v : RawNtDef) :
    Except String (NtName × List String) :=
  match k with
  | .ntK e =>
      if keys_are_nt then .ok (e.name, e.args.map Prod.fst)
      else .error "conflicting key types in nonterminals dict"
  | .s name =>
      if keys_are_nt then .error "conflicting key types in nonterminals dict"
      else .ok (.str name, match v with | .ntDef ps _ => ps | .plain _ => [])
  | .initK g =>
      if keys_are_nt then .error "conflicting key types in nonterminals dict"
      else .ok (.init g, match v with | .ntDef ps _ => ps | .plain _ => [])

/-- The first pass of `Grammar.__init__`, building `nt_params` (and
implicitly `str_to_nt`: a name is in `str_to_nt` exactly when its
entry here is the empty parameter list). -/
def build_nt_params (keys_are_nt : Bool) : List (NtKey × RawNtDef) →
    List (NtName × List String) → Except String (List (NtName × List String))
  | [], acc => .ok acc
  | (k, v) :: rest, acc => do
      let (name, ps) ← key_name_and_params keys_are_nt k v
      match alookup name acc with
      | some ps2 =>
          if ps2 = ps then build_nt_params keys_are_nt rest acc
          else .error "conflicting parameter name lists"
      | none => build_nt_params keys_are_nt rest (acc ++ [(name, ps)])

/-- The single synthesized init production `init_nt ::= goal` with the
`'accept'` action. -/
def init_production (g : NtStr) : Production :=
  ⟨[.nt (ntEOfStr g)], .accept, none⟩

/-- Validation and normalization of one goal in the init-synthesis
loop: a string goal must be a known parameterless nonterminal, an `Nt`
goal must be a key (whole key, or by name for string/`InitNt` keys).
An `Nt` goal named by an `InitNt` is not representable as `NtStr` (see
the section comment), and an `InitNt` goal hits the source's unbound
local `ok` (`NameError`). -/
def goal_to_ntstr (keys_are_nt : Bool) (keys : List NtKey)
    (ntParams : List (NtName × List String)) : Goal → Except String NtStr
  | .s v =>
      if alookup (NtName.str v) ntParams = some [] then .ok ⟨v, []⟩
      else .error "goal nonterminal is undefined"
  | .nt e =>
      if (if keys_are_nt then keys.contains (NtKey.ntK e) else nameIsKey keys e.name) then
        match e.name with
        | .str v => .ok ⟨v, e.args⟩
        | .init _ => .error "InitNt-named goal not representable"
      else .error "goal nonterminal is undefined"
  | .initG _ => .error "NameError: name is not defined"

/-- The init-nonterminal synthesis loop of `Grammar.__init__`: one
`InitNt(goal)` per goal, appended unless already present. -/
def synthesize_inits (keys_are_nt : Bool) (keys : List NtKey)
    (ntParams : List (NtName × List String)) :
    List Goal → List (NtKey × NtDef) → List NtE →
    Except String (List (NtKey × NtDef) × List NtE)
  | [], nts, inits => .ok (nts, inits)
  | goal :: rest, nts, inits => do
      let g ← goal_to_ntstr keys_are_nt keys ntParams goal
      let init_nt : NtE := ⟨.init g, []⟩
      let init_key : NtKey := if keys_are_nt then .ntK init_nt else .initK g
      let nts2 :=
        if (nts.map Prod.fst).contains init_key then nts
        else nts ++ [(init_key, ⟨[], [init_production g]⟩)]
      synthesize_inits keys_are_nt keys ntParams rest nts2 (inits ++ [init_nt])

/-- The default goal when `goal_nts` is `None`: the first dict key
itself. -/
def goal_of_key : NtKey → Goal
  | .s v => .s v
  | .ntK e => .nt e
  | .initK g => .initG g

/-- Key-kind flag taken from the first dict key (`keys_are_nt`). -/
def keysAreNtOf : NtKey → Bool
  | .ntK _ => true
  | _ => false

/-- The effective goal list of a `construct` call: the given list, or
the first dict key as default. -/
def goalsOf (goal_nts : Option (List Goal)) (input : List (NtKey × RawNtDef)) : List Goal :=
  match goal_nts with
  | some gs => gs
  | none =>
      match input with
      | [] => []
      | (k, _) :: _ => [goal_of_key k]

/-- Embedding of `Grammar.__init__`.  On an empty dict the source
crashes with an uncaught `StopIteration` from `next(iter(...))`. -/
def construct {τ : Type} (inferTypes : List (NtKey × NtDef) → List String → τ)
    (nonterminals : List (NtKey × RawNtDef)) (goal_nts : Option (List Goal))
    (variable_terminals : List String) (type_info : Option τ) :
    Except String (Grammar τ) :=
  let goals := goalsOf goal_nts nonterminals
  let vts := odedup variable_terminals
  match nonterminals with
  | [] => .error "StopIteration"
  | (k0, _) :: _ =>
      let keys_are_nt := keysAreNtOf k0
      do
        let ntParams ← build_nt_params keys_are_nt nonterminals []
        let keys := nonterminals.map Prod.fst
        let (nts, all_terminals) ← validate_all vts keys ntParams goals nonterminals vts
        let ti :=
          match type_info with
          | some t => t
          | none => inferTypes nts all_terminals
        let (nts2, inits) ← synthesize_inits keys_are_nt keys ntParams goals nts []
        .ok ⟨nts2, all_terminals, vts, ti, inits⟩

/-- Embedding of `Grammar.goals()`: the goal of each init
nonterminal.  Every init nonterminal built by `construct` has an
`InitNt` name, so the `filterMap` drops nothing. -/
def Grammar.goals {τ : Type} (g : Grammar τ) : List NtStr :=
  g.init_nts.filterMap fun n =>
    match n.name with
    | .init gl => some gl
    | .str _ => none

/-- Embedding of `Grammar.with_nonterminals(nonterminals)`: rebuild
with a new mapping, the same goals and variable terminals, and the
previously computed type information passed through. -/
def with_nonterminals {τ : Type} (inferTypes : List (NtKey × NtDef) → List String → τ)
    (g : Grammar τ) (nonterminals : List (NtKey × RawNtDef)) : Except String (Grammar τ) :=
  construct inferTypes nonterminals (some (g.goals.map fun gl => Goal.nt (ntEOfStr gl)))
    g.variable_terminals (some g.typeInfo)

/-! ## Specification predicates for grammar construction

Boolean predicates mirroring, claim-side, the individual conditions the
validating constructor enforces: undefined nonterminal references,
argument-tuple agreement, reduce-index ranges, and the remaining
well-formedness conditions of the amended C1. -/

/-- An element contains a reference to an undefined nonterminal
(directly or under `Optional`). -/
def elemHasUndefRef (keys : List NtKey) : Element → Bool
  | .nt e => !ntDefinedAsKey keys e
  | .opt inner => elemHasUndefRef keys inner
  | _ => false

mutual
/-- A reduce expression contains an integer stack reference outside
`[0, cl)`, at the top level or nested inside `CallMethod` arguments or
`Some`. -/
def exprHasOutOfRange (cl : Nat) : RExpr → Bool
  | .ref n => !decide (0 ≤ n ∧ n < (cl : Int))
  | .call _ args => exprsHaveOutOfRange cl args
  | .noneE => false
  | .someE inner => exprHasOutOfRange cl inner

/-- `exprHasOutOfRange` over an argument list. -/
def exprsHaveOutOfRange (cl : Nat) : List RExpr → Bool
  | [] => false
  | a :: rest => exprHasOutOfRange cl a || exprsHaveOutOfRange cl rest
end

/-- Body of a raw right-hand side. -/
def rawRhsBody : RawRhs → List Element
  | .bare body => body
  | .prod p => p.body

/-- Raw right-hand-side list of a raw definition. -/
def rawRhsList : RawNtDef → List RawRhs
  | .ntDef _ rl => rl
  | .plain rl => rl

/-- Declared parameter list of a raw definition. -/
def rawParams : RawNtDef → List String
  | .ntDef ps _ => ps
  | .plain _ => []

/-- Name contributed by a key to `nt_params` (claim-side, total). -/
def keyName : NtKey → NtName
  | .s v => .str v
  | .initK g => .init g
  | .ntK e => e.name

/-- Claim-side declared-parameters table: first occurrence of each name
(the source's `nt_params` without the conflict and kind checks). -/
def specNtParams (input : List (NtKey × RawNtDef)) : List (NtName × List String) :=
  input.foldl
    (fun acc kv =>
      match alookup (keyName kv.1) acc with
      | some _ => acc
      | none => acc ++ [(keyName kv.1, match kv.1 with
          | .ntK e => e.args.map Prod.fst
          | _ => rawParams kv.2)])
    []

/-- Boolean mirror of `checkMethodName`. -/
def methodNameOkB (m : String) : Bool :=
  if pyIsIdentifier m then true
  else
    match splitAtFirstSpace m.data with
    | some (name, pn) => pyIsIdentifier (String.mk name) && !pn.isEmpty && pn.all Char.isDigit
    | none => false

/-- Well-formedness of a terminal-or-`Nt` element against the key list
and declared parameters: defined, with matching argument names and
`Var` arguments drawn from the enclosing parameters. -/
def wfAtom (keys : List NtKey) (ntParams : List (NtName × List String))
    (ctx : List String) : Element → Bool
  | .term s =>
      (match alookup (NtName.str s) ntParams with
       | some ps => ps.isEmpty
       | none => true)
  | .nt e =>
      ntDefinedAsKey keys e &&
        (match alookup e.name ntParams with
         | some ps => e.args.map Prod.fst == ps
         | none => true) &&
        e.args.all (fun pr => match pr.2 with | .var v => ctx.contains v | .b _ => true)
  | _ => false

/-- Well-formedness of one body element. -/
def wfElement (keys : List NtKey) (ntParams : List (NtName × List String))
    (ctx : List String) : Element → Bool
  | .term s => wfAtom keys ntParams ctx (.term s)
  | .nt e => wfAtom keys ntParams ctx (.nt e)
  | .opt inner => wfAtom keys ntParams ctx inner
  | .lookahead _ _ => true
  | .errorTok => true
  | .errorSymbol _ => false

mutual
/-- Well-formedness of a reduce expression: method names valid and all
integer references in range. -/
def wfExpr (cl : Nat) : RExpr → Bool
  | .ref n => decide (0 ≤ n ∧ n < (cl : Int))
  | .call m args => methodNameOkB m && wfExprs cl args
  | .noneE => true
  | .someE inner => wfExpr cl inner

/-- `wfExpr` over an argument list. -/
def wfExprs (cl : Nat) : List RExpr → Bool
  | [] => true
  | a :: rest => wfExpr cl a && wfExprs cl rest
end

/-- Well-formedness of a production action. -/
def wfAction (body : List Element) : Action → Bool
  | .accept => true
  | .expr a => wfExpr (concreteLen body) a

/-- Well-formedness of a production condition. -/
def wfCondition (ctx : List String) : Option (String × Bool) → Bool
  | none => true
  | some (param, _) => ctx.contains param

/-- Well-formedness of one raw right-hand side under a string key. -/
def wfRawRhs (keys : List NtKey) (ntParams : List (NtName × List String))
    (ctx : List String) : RawRhs → Bool
  | .bare body => body.all (wfElement keys ntParams ctx)
  | .prod p =>
      wfCondition ctx p.condition && wfAction p.body p.action &&
        p.body.all (wfElement keys ntParams ctx)

/-- Well-formedness of one dict entry of a string-keyed input: the key
is an identifier string not colliding with a variable terminal and
every right-hand side is well-formed under the declared parameters. -/
def wfNtEntry (keys : List NtKey) (ntParams : List (NtName × List String))
    (vts : List String) (kv : NtKey × RawNtDef) : Bool :=
  match kv.1 with
  | .s v =>
      pyIsIdentifier v && !(vts.contains v) &&
        (rawRhsList kv.2).all (wfRawRhs keys ntParams (rawParams kv.2))
  | _ => false

/-- Well-formedness of a whole string-keyed input (the amended C1
conditions, minus the goal conditions which are stated separately). -/
def wfInputStr (input : List (NtKey × RawNtDef)) (vts : List String) : Bool :=
  input.all (wfNtEntry (input.map Prod.fst) (specNtParams input) (odedup vts))

/-- The claim's own well-formedness conditions, as C1 words them: every
nonterminal reference resolves, every argument tuple matches the
declared parameter names, every integer reduce index is in range. -/
def claimC1WellFormed (input : List (NtKey × RawNtDef)) : Bool :=
  input.all fun kv =>
    (rawRhsList kv.2).all fun r =>
      ((rawRhsBody r).all fun e =>
        !elemHasUndefRef (input.map Prod.fst) e &&
          (match e with
           | .nt e2 =>
               (match alookup e2.name (specNtParams input) with
                | some ps => e2.args.map Prod.fst == ps
                | none => true)
           | _ => true)) &&
      (match r with
       | .prod p =>
           (match p.action with
            | .expr a => !exprHasOutOfRange (concreteLen p.body) a
            | .accept => true)
       | .bare _ => true)

/-- Combined claim-side soundness property of one raw right-hand side:
no undefined references in the body, and no out-of-range integer
reference in a supplied (`Production`) action. -/
def rawRhsOk (keys : List NtKey) (r : RawRhs) : Bool :=
  (rawRhsBody r).all (fun e => !elemHasUndefRef keys e) &&
    (match r with
     | .prod p =>
         (match p.action with
          | .expr a => !exprHasOutOfRange (concreteLen p.body) a
          | .accept => true)
     | .bare _ => true)

/-! ## Theorems -/

/-- C2: `lookahead_intersect` treats `None` as a two-sided identity;
two positive rules intersect their sets (result positive); a positive
and a negative rule, in either argument order, subtract the negative
set from the positive set (result positive); two negative rules union
their exclusion sets (result negative). -/
theorem c2_lookahead_intersect_laws :
    (∀ R, lookahead_intersect R none = R) ∧
    (∀ R, lookahead_intersect none R = R) ∧
    (∀ s t : Finset String,
      lookahead_intersect (some ⟨s, true⟩) (some ⟨t, true⟩) = some ⟨s ∩ t, true⟩) ∧
    (∀ s t : Finset String,
      lookahead_intersect (some ⟨s, true⟩) (some ⟨t, false⟩) = some ⟨s \ t, true⟩) ∧
    (∀ s t : Finset String,
      lookahead_intersect (some ⟨s, false⟩) (some ⟨t, true⟩) = some ⟨t \ s, true⟩) ∧
    (∀ s t : Finset String,
      lookahead_intersect (some ⟨s, false⟩) (some ⟨t, false⟩) = some ⟨s ∪ t, false⟩) := by
  refine ⟨?_, ?_, ?_, ?_, ?_, ?_⟩
  · intro R; cases R <;> rfl
  · intro R; cases R <;> rfl
  · intro s t; rfl
  · intro s t; rfl
  · intro s t; rfl
  · intro s t; rfl

/-- C10: the composed restriction `lookahead_intersect a b` admits a
terminal exactly when both `a` and `b` admit it. -/
theorem c10_lookahead_intersect_contains :
    ∀ (a b : Option LookaheadRule) (t : String),
      lookahead_contains (lookahead_intersect a b) t =
        (lookahead_contains a t && lookahead_contains b t) := by
  intro a b t
  cases a with
  | none => cases b <;> simp [lookahead_contains, lookahead_intersect]
  | some ra =>
    cases b with
    | none => simp [lookahead_contains, lookahead_intersect]
    | some rb =>
      rcases ra with ⟨s, p⟩
      rcases rb with ⟨u, q⟩
      cases p <;> cases q <;>
        by_cases h1 : t ∈ s <;> by_cases h2 : t ∈ u <;>
          simp [lookahead_contains, lookahead_intersect, h1, h2]

/-- The boolean do-while test in `apply_asi` (length 7 plus fixed
literals at positions 0, 2, 3, 5, 6) recognizes exactly the spec's
do-while shape. -/
theorem apply_asi_do_while_cond_iff (body : List Element) :
    ((body.length == 7)
        && (body[0]? == some (.term "do"))
        && (body[2]? == some (.term "while"))
        && (body[3]? == some (.term "("))
        && (body[5]? == some (.term ")"))
        && (body[6]? == some (.term ";"))) = true ↔ DoWhileShape body := by
  constructor
  · intro h
    rcases body with _ | ⟨a, _ | ⟨b, _ | ⟨c, _ | ⟨d, _ | ⟨e, _ | ⟨f, _ | ⟨g, rest⟩⟩⟩⟩⟩⟩⟩ <;>
      simp_all [DoWhileShape]
  · rintro ⟨s, e, rfl⟩
    rfl

/-- C3: a production fragment is ASI-split exactly when its body has
more than one element, ends in the literal terminal `;`, and its
left-hand nonterminal is not the synthesized `ForLexicalDeclaration`
variant; `apply_asi` then produces exactly the original production and a
fallback whose trailing `;` is replaced by an `ErrorSymbol` marker,
tagged `do_while_asi` exactly for the 7-element do-while shape and `asi`
otherwise. -/
theorem c3_asi_split :
    (∀ (lhs : String × List String) (p : EsProduction),
      needs_asi lhs p = true ↔
        (1 < p.body.length ∧ p.body.getLast? = some (.term ";") ∧
          lhs.1 ≠ "ForLexicalDeclaration")) ∧
    (∀ (p : EsProduction) (auto : Bool) (m : String) (args : List RExpr),
      p.reducer = .call m args →
      ∃ r code,
        apply_asi p auto = .ok
          [⟨p.body, r, p.condition⟩,
           ⟨p.body.dropLast ++ [.errorSymbol code], r, p.condition⟩] ∧
        (code = "do_while_asi" ↔ DoWhileShape p.body) ∧
        (code = "do_while_asi" ∨ code = "asi")) := by
  constructor
  · intro lhs p
    simp only [needs_asi, Bool.and_eq_true, Bool.not_eq_true', beq_eq_false_iff_ne,
      decide_eq_true_eq, beq_iff_eq, ne_eq]
    tauto
  · intro p auto m args hred
    refine ⟨(if auto then .call m args.dropLast else .call m args),
      (if (p.body.length == 7)
          && (p.body[0]? == some (.term "do"))
          && (p.body[2]? == some (.term "while"))
          && (p.body[3]? == some (.term "("))
          && (p.body[5]? == some (.term ")"))
          && (p.body[6]? == some (.term ";"))
        then "do_while_asi" else "asi"), ?_, ?_, ?_⟩
    · simp only [apply_asi, hred]
    · rw [← apply_asi_do_while_cond_iff p.body]
      by_cases h : ((p.body.length == 7)
          && (p.body[0]? == some (.term "do"))
          && (p.body[2]? == some (.term "while"))
          && (p.body[3]? == some (.term "("))
          && (p.body[5]? == some (.term ")"))
          && (p.body[6]? == some (.term ";"))) = true <;>
        simp [h]
    · by_cases h : ((p.body.length == 7)
          && (p.body[0]? == some (.term "do"))
          && (p.body[2]? == some (.term "while"))
          && (p.body[3]? == some (.term "("))
          && (p.body[5]? == some (.term ")"))
          && (p.body[6]? == some (.term ";"))) = true <;>
        simp [h]

/-- Witness for `c3_asi_split`: the 7-element do-while production is
split into itself and a fallback tagged `do_while_asi`. -/
theorem c3_asi_split_witness :
    ∃ r code,
      apply_asi
        ⟨[.term "do", .nt ⟨.str "Statement", []⟩, .term "while", .term "(",
          .nt ⟨.str "Expression", []⟩, .term ")", .term ";"],
         .call "S 0" [.ref 0, .ref 1], none⟩ true = .ok
        [⟨[.term "do", .nt ⟨.str "Statement", []⟩, .term "while", .term "(",
           .nt ⟨.str "Expression", []⟩, .term ")", .term ";"], r, none⟩,
         ⟨([.term "do", .nt ⟨.str "Statement", []⟩, .term "while", .term "(",
            .nt ⟨.str "Expression", []⟩, .term ")", .term ";"].dropLast
             ++ [.errorSymbol code]), r, none⟩] ∧
      (code = "do_while_asi" ↔ DoWhileShape
        [.term "do", .nt ⟨.str "Statement", []⟩, .term "while", .term "(",
         .nt ⟨.str "Expression", []⟩, .term ")", .term ";"]) ∧
      (code = "do_while_asi" ∨ code = "asi") :=
  c3_asi_split.2
    ⟨[.term "do", .nt ⟨.str "Statement", []⟩, .term "while", .term "(",
      .nt ⟨.str "Expression", []⟩, .term ")", .term ";"],
     .call "S 0" [.ref 0, .ref 1], none⟩ true "S 0" [.ref 0, .ref 1] rfl

/-- Helper: the last element of `l ++ [a]` is `a`. -/
theorem getLast?_append_singleton {α : Type} (l : List α) (a : α) :
    (l ++ [a]).getLast? = some a := by
  induction l with
  | nil => rfl
  | cons x xs ih =>
      cases xs with
      | nil => rfl
      | cons y ys =>
          simp only [List.cons_append, List.getLast?_cons_cons] at ih ⊢
          exact ih

/-- Computation rule for `default_reducer` on an empty body. -/
theorem default_reducer_nil (lhs : String × List String) (i : Nat) (sole : Bool) :
    default_reducer lhs i [] sole =
      .ok (.call (if sole then lhs.1 else lhs.1 ++ " " ++ toString i) []) := rfl

/-- Computation rule for `default_reducer` on a body of two or more
elements: always a synthesized method call. -/
theorem default_reducer_ge2 (lhs : String × List String) (i : Nat) (sole : Bool)
    (a b : Element) (rest : List Element) :
    default_reducer lhs i (a :: b :: rest) sole =
      .ok (.call (if sole then lhs.1 else lhs.1 ++ " " ++ toString i)
        ((List.range (((a :: b :: rest).filter is_concrete_element).length)).map
          fun k => .ref (Int.ofNat k))) := rfl

/-- Computation rule for `default_reducer` on a single concrete
element: decided by `is_matched_pair_elem`. -/
theorem default_reducer_single (lhs : String × List String) (i : Nat) (sole : Bool)
    (e : Element) (hconc : is_concrete_element e = true) :
    default_reducer lhs i [e] sole =
      match is_matched_pair_elem lhs.1 e with
      | .error msg => .error msg
      | .ok true => .ok (.ref 0)
      | .ok false => .ok (.call (if sole then lhs.1 else lhs.1 ++ " " ++ toString i)
          [.ref 0]) := by
  simp only [default_reducer, List.filter_cons, hconc, if_true, List.filter_nil,
    List.length_cons, List.length_nil, Nat.zero_add]
  cases hm : is_matched_pair_elem lhs.1 e with
  | error msg => simp
  | ok b => cases b <;> simp [List.range_succ, Int.ofNat_zero]

/-- Computation rule for `default_reducer` on a single non-concrete
element (a lookahead or the error token): no value contributes, so the
reducer is a zero-argument method call. -/
theorem default_reducer_single_nonconc (lhs : String × List String) (i : Nat) (sole : Bool)
    (e : Element) (hconc : is_concrete_element e = false) :
    default_reducer lhs i [e] sole =
      .ok (.call (if sole then lhs.1 else lhs.1 ++ " " ++ toString i) []) := by
  simp only [default_reducer, List.filter_cons, hconc, Bool.false_eq_true, if_false,
    List.filter_nil, List.length_nil]
  simp

/-- C4 counterexample: the claim's trigger condition — exactly one
value-contributing element whose name, together with the left-hand-side
name, matches a common production-group entry — is satisfied by
`Expression ::= [lookahead] PrimaryExpression`, yet the inferred reducer
is a synthesized method call, not the identity forward-reference `$0`:
the code additionally requires the whole body to be a single element.
And on the singleton body `Expression ::= PrimaryExpression?` the
claim's "otherwise" clause asserts a `CallMethod` reducer, but the
code raises `TypeError` (`re.search` applied to the `Optional`
element, reached because a production group matches the left-hand
name). -/
theorem c4_counterexample :
    ([Element.lookahead ["x"] true, .nt ⟨.str "PrimaryExpression", []⟩].filter
        is_concrete_element = [.nt ⟨.str "PrimaryExpression", []⟩]) ∧
    elem_match_name (.nt ⟨.str "PrimaryExpression", []⟩) = some "PrimaryExpression" ∧
    is_matched_pair "Expression" "PrimaryExpression" = true ∧
    default_reducer ("Expression", []) 0
        [.lookahead ["x"] true, .nt ⟨.str "PrimaryExpression", []⟩] true =
      .ok (.call "Expression" [.ref 0]) ∧
    default_reducer ("Expression", []) 0
        [.lookahead ["x"] true, .nt ⟨.str "PrimaryExpression", []⟩] true ≠
      .ok (.ref 0) ∧
    is_concrete_element (.opt (.nt ⟨.str "PrimaryExpression", []⟩)) = true ∧
    isErr (default_reducer ("Expression", []) 0
        [.opt (.nt ⟨.str "PrimaryExpression", []⟩)] true) = true := by
  decide

/-- C4 (amended): for a fragment with no explicit reducer, the inferred
reducer is the identity forward-reference `$0` exactly when the body
consists of exactly one element which is a terminal or a string-named
nonterminal whose name, together with the left-hand nonterminal name,
matches one common entry of the fixed production-group list; the
computation raises `TypeError` exactly when the body consists of
exactly one value-contributing element that carries no string name (an
`Optional`, an `InitNt`-named nonterminal or an error symbol) while
some production-group entry matches the left-hand name; in every other
case the reducer is `CallMethod` with arguments `0..nargs-1` and
method name equal to the nonterminal name when the nonterminal has a
sole production, or name-space-index otherwise. -/
theorem c4_default_reducer (lhs : String × List String) (i : Nat) (body : List Element)
    (sole : Bool) :
    (default_reducer lhs i body sole = .ok (.ref 0) ↔
      ∃ e n, body = [e] ∧ elem_match_name e = some n ∧
        ∃ g ∈ PRODUCTION_GROUPS, g lhs.1 = true ∧ g n = true) ∧
    (isErr (default_reducer lhs i body sole) = true ↔
      ∃ e, body = [e] ∧ is_concrete_element e = true ∧ elem_match_name e = none ∧
        ∃ g ∈ PRODUCTION_GROUPS, g lhs.1 = true) ∧
    (¬(∃ e n, body = [e] ∧ elem_match_name e = some n ∧
        ∃ g ∈ PRODUCTION_GROUPS, g lhs.1 = true ∧ g n = true) →
     ¬(∃ e, body = [e] ∧ is_concrete_element e = true ∧ elem_match_name e = none ∧
        ∃ g ∈ PRODUCTION_GROUPS, g lhs.1 = true) →
      default_reducer lhs i body sole =
        .ok (.call (if sole then lhs.1 else lhs.1 ++ " " ++ toString i)
          ((List.range ((body.filter is_concrete_element).length)).map
            fun k => .ref (Int.ofNat k)))) := by
  rcases body with _ | ⟨e, _ | ⟨e2, rest⟩⟩
  · refine ⟨?_, ?_, fun _ _ => rfl⟩
    · constructor
      · intro h
        rw [default_reducer_nil] at h
        simp at h
      · rintro ⟨e', n', he', -⟩
        simp at he'
    · constructor
      · intro h
        rw [default_reducer_nil] at h
        simp [isErr] at h
      · rintro ⟨e', he', -⟩
        simp at he'
  · rcases he : elem_match_name e with _ | n
    · cases hconc : is_concrete_element e with
      | true =>
          have h0 : is_matched_pair_elem lhs.1 e =
              (if PRODUCTION_GROUPS.any fun g => g lhs.1 then
                .error "TypeError: expected string or bytes-like object"
              else .ok false) := by
            unfold is_matched_pair_elem
            rw [he]
          by_cases hg : (PRODUCTION_GROUPS.any fun g => g lhs.1) = true
          · have hex : ∃ g ∈ PRODUCTION_GROUPS, g lhs.1 = true :=
              List.any_eq_true.mp hg
            have hmm : is_matched_pair_elem lhs.1 e =
                .error "TypeError: expected string or bytes-like object" := by
              rw [h0, if_pos hg]
            have hred : default_reducer lhs i [e] sole =
                .error "TypeError: expected string or bytes-like object" := by
              rw [default_reducer_single lhs i sole e hconc, hmm]
            refine ⟨?_, ?_, fun _ hE => absurd ⟨e, rfl, hconc, he, hex⟩ hE⟩
            · rw [hred]
              constructor
              · intro h
                cases h
              · rintro ⟨e', n', he', hn', -⟩
                injection he' with h1 _
                rw [← h1, he] at hn'
                cases hn'
            · rw [hred]
              exact ⟨fun _ => ⟨e, rfl, hconc, he, hex⟩, fun _ => rfl⟩
          · have hmm : is_matched_pair_elem lhs.1 e = .ok false := by
              rw [h0, if_neg hg]
            have hred : default_reducer lhs i [e] sole =
                .ok (.call (if sole then lhs.1 else lhs.1 ++ " " ++ toString i)
                  [.ref 0]) := by
              rw [default_reducer_single lhs i sole e hconc, hmm]
            refine ⟨?_, ?_, fun _ _ => ?_⟩
            · rw [hred]
              constructor
              · intro h
                simp at h
              · rintro ⟨e', n', he', hn', -⟩
                injection he' with h1 _
                rw [← h1, he] at hn'
                cases hn'
            · rw [hred]
              constructor
              · intro h
                simp [isErr] at h
              · rintro ⟨e', he', -, -, hgex⟩
                exact absurd (List.any_eq_true.mpr hgex) hg
            · rw [hred]
              have hl : (([e].filter is_concrete_element)).length = 1 := by
                simp [List.filter_cons, hconc]
              rw [hl]
              simp [List.range_succ, Int.ofNat_zero]
      | false =>
          have hred := default_reducer_single_nonconc lhs i sole e hconc
          refine ⟨?_, ?_, fun _ _ => ?_⟩
          · rw [hred]
            constructor
            · intro h
              simp at h
            · rintro ⟨e', n', he', hn', -⟩
              injection he' with h1 _
              rw [← h1, he] at hn'
              cases hn'
          · rw [hred]
            constructor
            · intro h
              simp [isErr] at h
            · rintro ⟨e', he', hc', -, -⟩
              injection he' with h1 _
              rw [← h1, hconc] at hc'
              cases hc'
          · have hl : (([e].filter is_concrete_element)).length = 0 := by
              simp [List.filter_cons, hconc]
            rw [hl]
            exact hred
    · have hconc : is_concrete_element e = true := by
        cases e with
        | term s => rfl
        | nt x => rfl
        | opt x => simp [elem_match_name] at he
        | lookahead s b => simp [elem_match_name] at he
        | errorTok => simp [elem_match_name] at he
        | errorSymbol c => simp [elem_match_name] at he
      have hnoE : ¬(∃ e', [e] = [e'] ∧ is_concrete_element e' = true ∧
          elem_match_name e' = none ∧ ∃ g ∈ PRODUCTION_GROUPS, g lhs.1 = true) := by
        rintro ⟨e', he', -, hn', -⟩
        injection he' with h1 _
        rw [← h1, he] at hn'
        cases hn'
      by_cases hm : is_matched_pair lhs.1 n = true
      · have hmm : is_matched_pair_elem lhs.1 e = .ok true := by
          have h0 : is_matched_pair_elem lhs.1 e = .ok (is_matched_pair lhs.1 n) := by
            unfold is_matched_pair_elem
            rw [he]
          rw [h0, hm]
        have hred : default_reducer lhs i [e] sole = .ok (.ref 0) := by
          rw [default_reducer_single lhs i sole e hconc, hmm]
        have hM : ∃ e' n', [e] = [e'] ∧ elem_match_name e' = some n' ∧
            ∃ g ∈ PRODUCTION_GROUPS, g lhs.1 = true ∧ g n' = true := by
          rw [is_matched_pair, List.any_eq_true] at hm
          obtain ⟨g, hg, hgm⟩ := hm
          rw [Bool.and_eq_true] at hgm
          exact ⟨e, n, rfl, he, g, hg, hgm.1, hgm.2⟩
        refine ⟨?_, ?_, fun hMn _ => absurd hM hMn⟩
        · rw [hred]
          exact ⟨fun _ => hM, fun _ => rfl⟩
        · rw [hred]
          constructor
          · intro h
            simp [isErr] at h
          · intro hE
            exact absurd hE hnoE
      · have hm' : is_matched_pair lhs.1 n = false := Bool.eq_false_iff.mpr hm
        have hmm : is_matched_pair_elem lhs.1 e = .ok false := by
          have h0 : is_matched_pair_elem lhs.1 e = .ok (is_matched_pair lhs.1 n) := by
            unfold is_matched_pair_elem
            rw [he]
          rw [h0, hm']
        have hred : default_reducer lhs i [e] sole =
            .ok (.call (if sole then lhs.1 else lhs.1 ++ " " ++ toString i) [.ref 0]) := by
          rw [default_reducer_single lhs i sole e hconc, hmm]
        refine ⟨?_, ?_, fun _ _ => ?_⟩
        · rw [hred]
          constructor
          · intro h
            simp at h
          · rintro ⟨e', n', he', hn', g, hg, hgl, hgn⟩
            have heq : e = e' := by injection he'
            subst heq
            rw [he] at hn'
            injection hn' with hneq
            subst hneq
            have : is_matched_pair lhs.1 n = true := by
              rw [is_matched_pair, List.any_eq_true]
              exact ⟨g, hg, by rw [Bool.and_eq_true]; exact ⟨hgl, hgn⟩⟩
            rw [hm'] at this
            cases this
        · rw [hred]
          constructor
          · intro h
            simp [isErr] at h
          · intro hE
            exact absurd hE hnoE
        · rw [hred]
          have hl : (([e].filter is_concrete_element)).length = 1 := by
            simp [List.filter_cons, hconc]
          rw [hl]
          simp [List.range_succ, Int.ofNat_zero]
  · refine ⟨?_, ?_, fun _ _ => by rw [default_reducer_ge2]⟩
    · constructor
      · intro h
        rw [default_reducer_ge2] at h
        simp at h
      · rintro ⟨e', n', he', -⟩
        simp at he'
    · constructor
      · intro h
        rw [default_reducer_ge2] at h
        simp [isErr] at h
      · rintro ⟨e', he', -⟩
        simp at he'

/-- Witness for `c4_default_reducer`: `Expression ::= PrimaryExpression`
as a sole production gets the identity reducer. -/
theorem c4_default_reducer_witness :
    default_reducer ("Expression", []) 0 [.nt ⟨.str "PrimaryExpression", []⟩] true =
      .ok (.ref 0) :=
  (c4_default_reducer ("Expression", []) 0 [.nt ⟨.str "PrimaryExpression", []⟩]
    true).1.mpr
    ⟨.nt ⟨.str "PrimaryExpression", []⟩, "PrimaryExpression", rfl, rfl,
      productionGroup1, by simp [PRODUCTION_GROUPS], by decide, by decide⟩

/-- C5 counterexample: splitting `A ::= "x" ";"` (auto-generated
reducer) yields a strict alternative whose body is unchanged; re-running
the splitter on that strict alternative splits it again — `needs_asi`
still accepts it and `apply_asi` again yields two productions — contrary
to the claim that neither resulting alternative is re-split. -/
theorem c5_counterexample :
    apply_asi ⟨[.term "x", .term ";"], .call "A 0" [.ref 0, .ref 1], none⟩ true =
      .ok [⟨[.term "x", .term ";"], .call "A 0" [.ref 0], none⟩,
           ⟨[.term "x", .errorSymbol "asi"], .call "A 0" [.ref 0], none⟩] ∧
    needs_asi ("A", []) ⟨[.term "x", .term ";"], .call "A 0" [.ref 0], none⟩ = true ∧
    apply_asi ⟨[.term "x", .term ";"], .call "A 0" [.ref 0], none⟩ false =
      .ok [⟨[.term "x", .term ";"], .call "A 0" [.ref 0], none⟩,
           ⟨[.term "x", .errorSymbol "asi"], .call "A 0" [.ref 0], none⟩] := by
  decide

/-- C5 (amended): for an ASI-eligible production with a `CallMethod`
reducer, splitting yields exactly two productions carrying one and the
same reducer (with the trailing semicolon argument dropped when the
reducer was auto-inferred); re-running the splitter on the fallback
alternative does not split it again, but the strict alternative keeps
its unchanged body and remains ASI-eligible (it would be re-split). -/
theorem c5_asi_split_shares_reducer (lhs : String × List String) (p : EsProduction)
    (auto : Bool) (m : String) (args : List RExpr)
    (hred : p.reducer = .call m args) (_hasi : needs_asi lhs p = true) :
    ∃ code,
      apply_asi p auto = .ok
        [⟨p.body, (if auto then RExpr.call m args.dropLast else .call m args), p.condition⟩,
         ⟨p.body.dropLast ++ [.errorSymbol code],
          (if auto then RExpr.call m args.dropLast else .call m args), p.condition⟩] ∧
      needs_asi lhs ⟨p.body.dropLast ++ [.errorSymbol code],
          (if auto then RExpr.call m args.dropLast else .call m args), p.condition⟩ = false ∧
      needs_asi lhs ⟨p.body, (if auto then RExpr.call m args.dropLast else .call m args),
          p.condition⟩ = needs_asi lhs p := by
  refine ⟨(if (p.body.length == 7)
      && (p.body[0]? == some (.term "do"))
      && (p.body[2]? == some (.term "while"))
      && (p.body[3]? == some (.term "("))
      && (p.body[5]? == some (.term ")"))
      && (p.body[6]? == some (.term ";"))
    then "do_while_asi" else "asi"), ?_, ?_, rfl⟩
  · simp only [apply_asi, hred]
  · simp [needs_asi, getLast?_append_singleton]

/-- Witness for `c5_asi_split_shares_reducer` at the concrete production
`X ::= "a" ";"` with explicit reducer `m($0)`. -/
theorem c5_asi_split_shares_reducer_witness :
    ∃ code,
      apply_asi ⟨[.term "a", .term ";"], .call "m" [.ref 0], none⟩ false = .ok
        [⟨[.term "a", .term ";"], .call "m" [.ref 0], none⟩,
         ⟨[Element.term "a", .term ";"].dropLast ++ [.errorSymbol code],
          .call "m" [.ref 0], none⟩] ∧
      needs_asi ("X", []) ⟨[Element.term "a", .term ";"].dropLast ++ [.errorSymbol code],
          .call "m" [.ref 0], none⟩ = false ∧
      needs_asi ("X", []) ⟨[.term "a", .term ";"], .call "m" [.ref 0], none⟩ =
        needs_asi ("X", []) ⟨[.term "a", .term ";"], .call "m" [.ref 0], none⟩ := by
  have h := c5_asi_split_shares_reducer ("X", []) ⟨[.term "a", .term ";"],
    .call "m" [.ref 0], none⟩ false "m" [.ref 0] rfl (by decide)
  simpa using h

/-- Helper: a successful `alookup` witnesses list membership. -/
theorem alookup_mem {α β : Type} [DecidableEq α] {k : α} {v : β} :
    ∀ {l : List (α × β)}, alookup k l = some v → (k, v) ∈ l := by
  intro l
  induction l with
  | nil => intro h; cases h
  | cons p rest ih =>
      intro h
      rw [alookup] at h
      by_cases hk : p.1 = k
      · rw [if_pos hk] at h
        injection h with hv
        rw [show (k, v) = p from by rw [← hk, ← hv]]
        exact List.mem_cons_self p rest
      · rw [if_neg hk] at h
        exact List.mem_cons_of_mem _ (ih h)

/-- Helper: `alookup` misses exactly when no key in the list matches. -/
theorem alookup_eq_none {α β : Type} [DecidableEq α] {k : α} :
    ∀ {l : List (α × β)}, alookup k l = none ↔ ∀ p ∈ l, p.1 ≠ k := by
  intro l
  induction l with
  | nil => simp [alookup]
  | cons p rest ih =>
      rw [alookup]
      by_cases hk : p.1 = k
      · rw [if_pos hk]
        simp [hk]
      · rw [if_neg hk]
        rw [ih]
        constructor
        · intro h q hq
          rcases List.mem_cons.mp hq with hq | hq
          · rw [hq]; exact hk
          · exact h q hq
        · intro h q hq
          exact h q (List.mem_cons_of_mem _ hq)

/-- Success direction of the camel-case check: if the upcoming camel
spellings are pairwise distinct and none is already in `seen`, the loop
passes. -/
theorem check_camel_case_go_ok (nts : List EmitIdent) :
    ∀ seen : List (String × EmitIdent),
      (∀ x ∈ nts, alookup (nonterminal_to_camel x) seen = none) →
      (nts.map nonterminal_to_camel).Nodup →
      check_camel_case_go nts seen = .ok () := by
  induction nts with
  | nil => intro seen _ _; rfl
  | cons nt rest ih =>
      intro seen hseen hdist
      rw [check_camel_case_go]
      rw [hseen nt (by simp)]
      apply ih
      · intro x hx
        rw [alookup]
        have hne : nonterminal_to_camel nt ≠ nonterminal_to_camel x := by
          rw [List.map_cons, List.nodup_cons] at hdist
          intro hc
          exact hdist.1 (hc ▸ List.mem_map_of_mem nonterminal_to_camel hx)
        rw [if_neg hne]
        exact hseen x (List.mem_cons_of_mem _ hx)
      · rw [List.map_cons, List.nodup_cons] at hdist
        exact hdist.2

/-- Collision direction of the camel-case check: a duplicate camel
spelling (among the upcoming identities or against `seen`) makes the
loop fail with a message naming two distinct colliding identities. -/
theorem check_camel_case_go_collision (orig : List EmitIdent) (nts : List EmitIdent) :
    ∀ seen : List (String × EmitIdent),
      nts.Nodup →
      (∀ x ∈ nts, x ∈ orig) →
      (∀ cp ∈ seen, nonterminal_to_camel cp.2 = cp.1 ∧ cp.2 ∉ nts ∧ cp.2 ∈ orig) →
      (¬(nts.map nonterminal_to_camel).Nodup ∨
        ∃ cp ∈ seen, ∃ x ∈ nts, cp.1 = nonterminal_to_camel x) →
      ∃ a b, check_camel_case_go nts seen =
          .error (camelCollisionMsg a b (nonterminal_to_camel b)) ∧
        a ∈ orig ∧ b ∈ orig ∧
        nonterminal_to_camel a = nonterminal_to_camel b ∧ a ≠ b := by
  induction nts with
  | nil =>
      intro seen _ _ _ hcol
      rcases hcol with hcol | ⟨cp, _, x, hx, _⟩
      · exact absurd List.nodup_nil hcol
      · cases hx
  | cons nt rest ih =>
      intro seen hnodup hsub hseen hcol
      rw [check_camel_case_go]
      cases halo : alookup (nonterminal_to_camel nt) seen with
      | some prev =>
          obtain ⟨hc, hnin, hor⟩ := hseen _ (alookup_mem halo)
          refine ⟨prev, nt, rfl, hor, hsub nt (by simp), hc, ?_⟩
          intro hc2
          rw [hc2] at hnin
          exact hnin (by simp)
      | none =>
          rw [List.nodup_cons] at hnodup
          apply ih ((nonterminal_to_camel nt, nt) :: seen) hnodup.2
            (fun x hx => hsub x (List.mem_cons_of_mem _ hx))
          · intro cp hcp
            rcases List.mem_cons.mp hcp with hcp | hcp
            · rw [hcp]
              exact ⟨rfl, hnodup.1, hsub nt (by simp)⟩
            · obtain ⟨h1, h2, h3⟩ := hseen cp hcp
              exact ⟨h1, fun hc => h2 (List.mem_cons_of_mem _ hc), h3⟩
          · rcases hcol with hcol | ⟨cp, hcp, x, hx, hcx⟩
            · rw [List.map_cons, List.nodup_cons] at hcol
              rw [not_and_or] at hcol
              rcases hcol with hcol | hcol
              · rw [not_not] at hcol
                obtain ⟨x, hx, hcx⟩ := List.mem_map.mp hcol
                exact Or.inr ⟨(nonterminal_to_camel nt, nt), by simp, x, hx, hcx.symm⟩
              · exact Or.inl hcol
            · rcases List.mem_cons.mp hx with hx | hx
              · exfalso
                rw [alookup_eq_none] at halo
                exact halo cp hcp (by rw [hcx, hx])
              · exact Or.inr ⟨cp, List.mem_cons_of_mem _ hcp, x, hx, hcx⟩

/-- C8: before emitting declarations the Rust backend checks every
reachable nonterminal identity; when two distinct identities map to the
same camel-case generated identifier it aborts with an error naming
both colliding identities, and when all camel-case spellings are
pairwise distinct the check passes. -/
theorem c8_check_camel_case (nonterminals : List EmitIdent)
    (hnodup : nonterminals.Nodup) :
    ((nonterminals.map nonterminal_to_camel).Nodup →
      check_camel_case nonterminals = .ok ()) ∧
    (¬(nonterminals.map nonterminal_to_camel).Nodup →
      ∃ a b, check_camel_case nonterminals =
          .error (camelCollisionMsg a b (nonterminal_to_camel b)) ∧
        a ∈ nonterminals ∧ b ∈ nonterminals ∧
        nonterminal_to_camel a = nonterminal_to_camel b ∧ a ≠ b) := by
  constructor
  · intro hdist
    exact check_camel_case_go_ok nonterminals [] (by intro x _; rfl) hdist
  · intro hcol
    exact check_camel_case_go_collision nonterminals nonterminals []
      hnodup (fun x hx => hx) (by intro cp hcp; cases hcp) (Or.inl hcol)

/-- Witness for `c8_check_camel_case`: `Foo_Bar` and `FooBar` both
camel-case to `FooBar`, so the check fails naming both. -/
theorem c8_check_camel_case_witness :
    ∃ a b, check_camel_case [.ntI ⟨"Foo_Bar", []⟩, .ntI ⟨"FooBar", []⟩] =
        .error (camelCollisionMsg a b (nonterminal_to_camel b)) ∧
      a ∈ [EmitIdent.ntI ⟨"Foo_Bar", []⟩, .ntI ⟨"FooBar", []⟩] ∧
      b ∈ [EmitIdent.ntI ⟨"Foo_Bar", []⟩, .ntI ⟨"FooBar", []⟩] ∧
      nonterminal_to_camel a = nonterminal_to_camel b ∧ a ≠ b :=
  (c8_check_camel_case [.ntI ⟨"Foo_Bar", []⟩, .ntI ⟨"FooBar", []⟩] (by decide)).2
    (by decide)

/-- Computation rule: binding after `ok`. -/
theorem ebind_ok {ε α β : Type} (a : α) (f : α → Except ε β) :
    (Except.ok a >>= f) = f a := rfl

/-- Computation rule: binding after `error`. -/
theorem ebind_error {ε α β : Type} (e : ε) (f : α → Except ε β) :
    ((Except.error e : Except ε α) >>= f) = .error e := rfl

/-- Membership in an ordered-set insertion. -/
theorem mem_insertIfAbsent {α : Type} [DecidableEq α] (x y : α) (l : List α) :
    x ∈ insertIfAbsent y l ↔ (x ∈ l ∨ x = y) := by
  rw [insertIfAbsent]
  by_cases h : y ∈ l
  · rw [if_pos h]
    constructor
    · exact Or.inl
    · rintro (hx | rfl)
      · exact hx
      · exact h
  · rw [if_neg h]
    simp

/-- Membership after the `odedup` fold, generalized over the
accumulator. -/
theorem mem_odedup_foldl {α : Type} [DecidableEq α] (l : List α) :
    ∀ (acc : List α) (x : α),
      x ∈ l.foldl (fun acc x => insertIfAbsent x acc) acc ↔ (x ∈ acc ∨ x ∈ l) := by
  induction l with
  | nil => simp
  | cons y rest ih =>
      intro acc x
      rw [List.foldl_cons, ih, mem_insertIfAbsent]
      constructor
      · rintro ((hx | rfl) | hx)
        · exact Or.inl hx
        · exact Or.inr (by simp)
        · exact Or.inr (List.mem_cons_of_mem _ hx)
      · rintro (hx | hx)
        · exact Or.inl (Or.inl hx)
        · rcases List.mem_cons.mp hx with rfl | hx
          · exact Or.inl (Or.inr rfl)
          · exact Or.inr hx

/-- `odedup` has the same members as its input. -/
theorem mem_odedup {α : Type} [DecidableEq α] (l : List α) (x : α) :
    x ∈ odedup l ↔ x ∈ l := by
  rw [odedup, mem_odedup_foldl]
  simp

/-- `alookup` over an append looks left first. -/
theorem alookup_append {α β : Type} [DecidableEq α] (k : α) (l1 l2 : List (α × β)) :
    alookup k (l1 ++ l2) =
      match alookup k l1 with
      | some v => some v
      | none => alookup k l2 := by
  induction l1 with
  | nil => rfl
  | cons p rest ih =>
      rw [List.cons_append, alookup, alookup]
      by_cases h : p.1 = k
      · rcases p with ⟨a, b⟩
        simp only at h
        rw [if_pos h, if_pos h]
      · rcases p with ⟨a, b⟩
        simp only at h
        rw [if_neg h, if_neg h, ih]

/-- Shape of a successful `build_nt_grammars` run. -/
theorem build_nt_grammars_shape :
    ∀ (defs : List (String × String × EsRawDef)) (acc res : List (String × String)),
      build_nt_grammars defs acc = .ok res →
      res = acc ++ defs.map fun t => (t.1, t.2.1) := by
  intro defs
  induction defs with
  | nil =>
      intro acc res h
      injection h with h
      simp [h.symm]
  | cons t rest ih =>
      intro acc res h
      rcases t with ⟨name, eq, d⟩
      rw [build_nt_grammars] at h
      by_cases hdup : (alookup name acc).isSome
      · rw [if_pos hdup] at h
        cases h
      · rw [if_neg hdup] at h
        rw [ih _ _ h]
        simp

/-- A successful `build_nt_grammars` run has pairwise-distinct keys. -/
theorem build_nt_grammars_nodup :
    ∀ (defs : List (String × String × EsRawDef)) (acc res : List (String × String)),
      build_nt_grammars defs acc = .ok res →
      (acc.map Prod.fst).Nodup →
      (res.map Prod.fst).Nodup := by
  intro defs
  induction defs with
  | nil =>
      intro acc res h hacc
      injection h with h
      rw [← h]
      exact hacc
  | cons t rest ih =>
      intro acc res h hacc
      rcases t with ⟨name, eq, d⟩
      rw [build_nt_grammars] at h
      by_cases hdup : (alookup name acc).isSome
      · rw [if_pos hdup] at h
        cases h
      · rw [if_neg hdup] at h
        apply ih _ _ h
        rw [List.map_append, List.map_singleton]
        apply List.Nodup.append hacc (List.nodup_singleton name)
        intro a ha hb
        rcases List.mem_singleton.mp hb with rfl
        rcases List.mem_map.mp ha with ⟨p, hp, hp1⟩
        have hnone : alookup a acc = none := by
          cases hh : alookup a acc with
          | none => rfl
          | some v => rw [hh] at hdup; simp at hdup
        exact (alookup_eq_none.mp hnone p hp) hp1

/-- Values found by `alookup` under pairwise-distinct keys: a key
present in the list is found with its unique value. -/
theorem alookup_of_mem_nodup {α β : Type} [DecidableEq α] (l : List (α × β)) (k : α) (v : β)
    (hmem : (k, v) ∈ l) (hnodup : (l.map Prod.fst).Nodup) :
    alookup k l = some v := by
  induction l with
  | nil => cases hmem
  | cons p rest ih =>
      rw [alookup]
      rcases List.mem_cons.mp hmem with rfl | hmem'
      · rw [if_pos rfl]
      · rw [List.map_cons, List.nodup_cons] at hnodup
        have hk : p.1 ≠ k := by
          intro hc
          exact hnodup.1 (hc ▸ List.mem_map_of_mem Prod.fst hmem')
        rw [if_neg hk]
        exact ih hmem' hnodup.2

/-- Every goal's marker ends up in the `goalMarkers` result. -/
theorem goalMarkers_mem (ntg : List (String × String)) :
    ∀ (gs : List String) (ms : List String),
      goalMarkers ntg gs = .ok ms →
      ∀ g ∈ gs, ∀ v, alookup g ntg = some v → v ∈ ms := by
  intro gs
  induction gs with
  | nil => intro ms _ g hg; cases hg
  | cons g0 rest ih =>
      intro ms h g hg v hv
      rw [goalMarkers] at h
      cases hl : alookup g0 ntg with
      | none => rw [hl] at h; cases h
      | some m0 =>
          rw [hl] at h
          cases hm : goalMarkers ntg rest with
          | error e =>
              rw [hm] at h
              simp only [bind, Except.bind] at h
              cases h
          | ok ms' =>
              rw [hm] at h
              simp only [bind, Except.bind] at h
              injection h with h
              rcases List.mem_cons.mp hg with rfl | hg'
              · rw [hl] at hv
                injection hv with hv
                rw [← h, ← hv]
                exact List.mem_cons_self m0 ms'
              · rw [← h]
                exact List.mem_cons_of_mem _ (ih ms' hm g hg' v hv)

/-- Keys of the nonterminal map assembled by `assemble_nts`: the
incoming keys followed by the names of all non-folded triples. -/
theorem assemble_nts_keys (single : Bool) (sel : String) :
    ∀ (defs : List (String × String × EsRawDef)) (nts : List (String × EsRawDef))
      (vts : List String) (nts' : List (String × EsRawDef)) (vts' : List String),
      assemble_nts single sel defs nts vts = .ok (nts', vts') →
      nts'.map Prod.fst = nts.map Prod.fst ++
        ((defs.filter fun t => !foldedOut single sel t.2.1).map Prod.fst) := by
  intro defs
  induction defs with
  | nil =>
      intro nts vts nts' vts' h
      injection h with h
      injection h with h1 h2
      simp [← h1]
  | cons t rest ih =>
      intro nts vts nts' vts' h
      rcases t with ⟨name, eq, d⟩
      rw [assemble_nts.eq_def] at h
      by_cases hf : foldedOut single sel eq = true
      · simp only [hf, if_true] at h
        rw [ih _ _ _ _ h, List.filter_cons]
        simp [hf]
      · rw [Bool.not_eq_true] at hf
        have hgoal : ∀ nts2, assemble_nts single sel rest nts2 vts = .ok (nts', vts') →
            nts2 = nts ++ [(name, d)] →
            nts'.map Prod.fst = nts.map Prod.fst ++
              (((name, eq, d) :: rest).filter fun t =>
                !foldedOut single sel t.2.1).map Prod.fst := by
          intro nts2 h2 hnts2
          rw [List.filter_cons]
          simp only [show ((name, eq, d) : String × String × EsRawDef).2.1 = eq from rfl,
            hf, Bool.not_false, if_true]
          rw [ih _ _ _ _ h2, hnts2]
          simp
        cases d with
        | ntDefD nd =>
            simp only [hf, Bool.false_eq_true, if_false] at h
            exact hgoal _ h rfl
        | listD ps =>
            simp only [hf, Bool.false_eq_true, if_false] at h
            cases hh : hack_productions ps with
            | error e =>
                rw [hh] at h
                simp only [bind, Except.bind] at h
                cases h
            | ok u =>
                rw [hh] at h
                simp only [bind, Except.bind] at h
                by_cases hdup : (alookup name nts).isSome
                · rw [if_pos hdup] at h; cases h
                · rw [if_neg hdup] at h
                  exact hgoal _ h rfl

/-- Variable-terminal set assembled by `assemble_nts`: the incoming set
plus the names of all folded triples. -/
theorem assemble_nts_vts (single : Bool) (sel : String) :
    ∀ (defs : List (String × String × EsRawDef)) (nts : List (String × EsRawDef))
      (vts : List String) (nts' : List (String × EsRawDef)) (vts' : List String),
      assemble_nts single sel defs nts vts = .ok (nts', vts') →
      ∀ x, x ∈ vts' ↔
        (x ∈ vts ∨ ∃ t ∈ defs, t.1 = x ∧ foldedOut single sel t.2.1 = true) := by
  intro defs
  induction defs with
  | nil =>
      intro nts vts nts' vts' h x
      injection h with h
      injection h with h1 h2
      simp [← h2]
  | cons t rest ih =>
      intro nts vts nts' vts' h x
      rcases t with ⟨name, eq, d⟩
      rw [assemble_nts.eq_def] at h
      by_cases hf : foldedOut single sel eq = true
      · simp only [hf, if_true] at h
        rw [ih _ _ _ _ h x, mem_insertIfAbsent]
        constructor
        · rintro ((hx | rfl) | ⟨t, ht, h1, h2⟩)
          · exact Or.inl hx
          · exact Or.inr ⟨(x, eq, d), by simp, rfl, hf⟩
          · exact Or.inr ⟨t, List.mem_cons_of_mem _ ht, h1, h2⟩
        · rintro (hx | ⟨t, ht, h1, h2⟩)
          · exact Or.inl (Or.inl hx)
          · rcases List.mem_cons.mp ht with rfl | ht'
            · exact Or.inl (Or.inr h1.symm)
            · exact Or.inr ⟨t, ht', h1, h2⟩
      · rw [Bool.not_eq_true] at hf
        have hgoal : ∀ nts2, assemble_nts single sel rest nts2 vts = .ok (nts', vts') →
            (x ∈ vts' ↔ (x ∈ vts ∨ ∃ t ∈ (name, eq, d) :: rest,
              t.1 = x ∧ foldedOut single sel t.2.1 = true)) := by
          intro nts2 h2
          rw [ih _ _ _ _ h2 x]
          constructor
          · rintro (hx | ⟨t, ht, h1, h2'⟩)
            · exact Or.inl hx
            · exact Or.inr ⟨t, List.mem_cons_of_mem _ ht, h1, h2'⟩
          · rintro (hx | ⟨t, ht, h1, h2'⟩)
            · exact Or.inl hx
            · rcases List.mem_cons.mp ht with rfl | ht'
              · rw [show ((name, eq, d) : String × String × EsRawDef).2.1 = eq from rfl] at h2'
                rw [hf] at h2'
                cases h2'
              · exact Or.inr ⟨t, ht', h1, h2'⟩
        cases d with
        | ntDefD nd =>
            simp only [hf, Bool.false_eq_true, if_false] at h
            exact hgoal _ h
        | listD ps =>
            simp only [hf, Bool.false_eq_true, if_false] at h
            cases hh : hack_productions ps with
            | error e =>
                rw [hh] at h
                simp only [bind, Except.bind] at h
                cases h
            | ok u =>
                rw [hh] at h
                simp only [bind, Except.bind] at h
                by_cases hdup : (alookup name nts).isSome
                · rw [if_pos hdup] at h; cases h
                · rw [if_neg hdup] at h
                  exact hgoal _ h

/-- Existing bindings survive `assemble_nts` (entries are only appended
at the end and `alookup` takes the first match). -/
theorem assemble_nts_preserve (single : Bool) (sel : String) :
    ∀ (defs : List (String × String × EsRawDef)) (nts : List (String × EsRawDef))
      (vts : List String) (nts' : List (String × EsRawDef)) (vts' : List String),
      assemble_nts single sel defs nts vts = .ok (nts', vts') →
      ∀ k v, alookup k nts = some v → alookup k nts' = some v := by
  intro defs
  induction defs with
  | nil =>
      intro nts vts nts' vts' h k v hk
      injection h with h
      injection h with h1 h2
      rw [← h1]
      exact hk
  | cons t rest ih =>
      intro nts vts nts' vts' h k v hk
      rcases t with ⟨name, eq, d⟩
      rw [assemble_nts.eq_def] at h
      by_cases hf : foldedOut single sel eq = true
      · simp only [hf, if_true] at h
        exact ih _ _ _ _ h k v hk
      · rw [Bool.not_eq_true] at hf
        have happ : ∀ d2 : EsRawDef, alookup k (nts ++ [(name, d2)]) = some v := by
          intro d2
          rw [alookup_append, hk]
        cases d with
        | ntDefD nd =>
            simp only [hf, Bool.false_eq_true, if_false] at h
            exact ih _ _ _ _ h k v (happ _)
        | listD ps =>
            simp only [hf, Bool.false_eq_true, if_false] at h
            cases hh : hack_productions ps with
            | error e =>
                rw [hh] at h
                simp only [bind, Except.bind] at h
                cases h
            | ok u =>
                rw [hh] at h
                simp only [bind, Except.bind] at h
                by_cases hdup : (alookup name nts).isSome
                · rw [if_pos hdup] at h; cases h
                · rw [if_neg hdup] at h
                  exact ih _ _ _ _ h k v (happ _)

/-- A non-folded triple whose name is fresh ends up bound to its
definition in the assembled map. -/
theorem assemble_nts_kept (single : Bool) (sel : String) :
    ∀ (defs : List (String × String × EsRawDef)),
      (defs.map Prod.fst).Nodup →
      ∀ (nts : List (String × EsRawDef)) (vts : List String)
        (nts' : List (String × EsRawDef)) (vts' : List String),
        assemble_nts single sel defs nts vts = .ok (nts', vts') →
        ∀ name eq d, (name, eq, d) ∈ defs → foldedOut single sel eq = false →
          alookup name nts = none → alookup name nts' = some d := by
  intro defs
  induction defs with
  | nil =>
      intro _ nts vts nts' vts' h name eq d hmem
      cases hmem
  | cons t rest ih =>
      intro hnodup nts vts nts' vts' h name eq d hmem hfold hnone
      rcases t with ⟨n2, e2, d2⟩
      rw [List.map_cons, List.nodup_cons] at hnodup
      rw [assemble_nts.eq_def] at h
      rcases List.mem_cons.mp hmem with heq | hmem'
      · injection heq with h1 h23
        injection h23 with h2 h3
        subst h1; subst h2; subst h3
        have happ : alookup name (nts ++ [(name, d)]) = some d := by
          rw [alookup_append, hnone, alookup]
          rw [if_pos rfl]
        cases d with
        | ntDefD nd =>
            simp only [hfold, Bool.false_eq_true, if_false] at h
            exact assemble_nts_preserve single sel _ _ _ _ _ h name _ happ
        | listD ps =>
            simp only [hfold, Bool.false_eq_true, if_false] at h
            cases hh : hack_productions ps with
            | error e =>
                rw [hh] at h
                simp only [bind, Except.bind] at h
                cases h
            | ok u =>
                rw [hh] at h
                simp only [bind, Except.bind] at h
                by_cases hdup : (alookup name nts).isSome
                · rw [hnone] at hdup; simp at hdup
                · rw [if_neg hdup] at h
                  exact assemble_nts_preserve single sel _ _ _ _ _ h name _ happ
      · have hne : n2 ≠ name := by
          intro hc
          apply hnodup.1
          rw [hc]
          exact List.mem_map.mpr ⟨(name, eq, d), hmem', rfl⟩
        have hnone2 : ∀ dd : EsRawDef, alookup name (nts ++ [(n2, dd)]) = none := by
          intro dd
          rw [alookup_append, hnone, alookup]
          rw [if_neg hne]
          rfl
        by_cases hf : foldedOut single sel e2 = true
        · simp only [hf, if_true] at h
          exact ih hnodup.2 _ _ _ _ h name eq d hmem' hfold hnone
        · rw [Bool.not_eq_true] at hf
          cases d2 with
          | ntDefD nd =>
              simp only [hf, Bool.false_eq_true, if_false] at h
              exact ih hnodup.2 _ _ _ _ h name eq d hmem' hfold (hnone2 _)
          | listD ps =>
              cases hh : hack_productions ps with
              | error e =>
                  simp only [hf, Bool.false_eq_true, if_false, hh] at h
                  simp only [bind, Except.bind] at h
                  cases h
              | ok u =>
                  simp only [hf, Bool.false_eq_true, if_false, hh] at h
                  simp only [bind, Except.bind] at h
                  by_cases hdup : (alookup n2 nts).isSome
                  · rw [if_pos hdup] at h; cases h
                  · rw [if_neg hdup] at h
                    exact ih hnodup.2 _ _ _ _ h name eq d hmem' hfold (hnone2 _)

/-- Anatomy of a successful single-grammar `finish_grammar` run: every
stage succeeded and the selected marker is the unique goal marker. -/
theorem finish_grammar_ok_cases (nt_defs : List (String × String × EsRawDef))
    (goals : List String) (args : AssembledGrammarArgs)
    (h : finish_grammar nt_defs goals true = .ok args) :
    ∃ res ms sel nts vts,
      build_nt_grammars nt_defs [] = .ok res ∧
      goals.isEmpty = false ∧
      goalMarkers res goals = .ok ms ∧
      odedup ms = [sel] ∧
      assemble_nts true sel nt_defs [] [] = .ok (nts, vts) ∧
      args = ⟨nts, goals, vts⟩ := by
  rw [finish_grammar] at h
  cases hb : build_nt_grammars nt_defs [] with
  | error e =>
      rw [hb] at h
      simp only [bind, Except.bind] at h
      cases h
  | ok res =>
      rw [hb] at h
      simp only [bind, Except.bind] at h
      cases hge : goals.isEmpty with
      | true =>
          rw [hge] at h
          simp only [if_true] at h
          cases h
      | false =>
          rw [hge] at h
          simp only [Bool.false_eq_true, if_false, if_true] at h
          cases hgm : goalMarkers res goals with
          | error e =>
              rw [hgm] at h
              simp only [bind, Except.bind] at h
              cases h
          | ok ms =>
              rw [hgm] at h
              simp only [bind, Except.bind] at h
              cases hod : odedup ms with
              | nil =>
                  rw [hod] at h
                  simp only [bind, Except.bind] at h
                  cases h
              | cons x xs =>
                  cases xs with
                  | cons y ys =>
                      rw [hod] at h
                      simp only [bind, Except.bind] at h
                      cases h
                  | nil =>
                      rw [hod] at h
                      simp only [pure, Except.pure, bind, Except.bind] at h
                      cases hasm : assemble_nts true x nt_defs [] [] with
                      | error e =>
                          rw [hasm] at h
                          simp only [bind, Except.bind] at h
                          cases h
                      | ok p =>
                          rcases p with ⟨nts, vts⟩
                          rw [hasm] at h
                          simp only [bind, Except.bind] at h
                          injection h with h
                          exact ⟨res, ms, x, nts, vts, rfl, rfl, hgm, hod, hasm, h.symm⟩

/-- Distinct keys of the raw definition list, available whenever
`build_nt_grammars` succeeded. -/
theorem finish_nodup_names (nt_defs : List (String × String × EsRawDef))
    (res : List (String × String)) (hb : build_nt_grammars nt_defs [] = .ok res) :
    (nt_defs.map Prod.fst).Nodup := by
  have hshape := build_nt_grammars_shape nt_defs [] res hb
  have hnd := build_nt_grammars_nodup nt_defs [] res hb (by simp)
  rw [hshape] at hnd
  simpa [List.map_map, Function.comp] using hnd

/-- C7 (amended): with a non-empty goal list in single-grammar mode,
`finish_grammar` fails whenever two goals resolve to different
grammar-kind markers; on success, when the selected marker is the
syntactic `":"`, every definition with a different marker is folded into
the variable-terminal set and dropped from the nonterminal map, while
when the selected marker is a lexical one (not `":"`), no definition is
folded at all — every definition is kept as a nonterminal and the
variable-terminal set stays empty. -/
theorem c7_finish_grammar (nt_defs : List (String × String × EsRawDef))
    (goals : List String) :
    (∀ g1 g2 m1 m2, g1 ∈ goals → g2 ∈ goals →
      lookupEq nt_defs g1 = some m1 → lookupEq nt_defs g2 = some m2 → m1 ≠ m2 →
      isErr (finish_grammar nt_defs goals true) = true) ∧
    (∀ args g0 m, finish_grammar nt_defs goals true = .ok args →
      g0 ∈ goals → lookupEq nt_defs g0 = some m →
      ((m = ":" → ∀ name eq d, (name, eq, d) ∈ nt_defs → eq ≠ ":" →
          name ∈ args.variable_terminals ∧ alookup name args.nonterminals = none) ∧
       (m ≠ ":" → args.variable_terminals = [] ∧
          ∀ name eq d, (name, eq, d) ∈ nt_defs →
            alookup name args.nonterminals = some d))) := by
  have hsel_eq : ∀ res ms sel g v,
      build_nt_grammars nt_defs [] = .ok res →
      goalMarkers res goals = .ok ms → odedup ms = [sel] →
      g ∈ goals → lookupEq nt_defs g = some v → v = sel := by
    intro res ms sel g v hb hgm hod hg hv
    have hres : res = nt_defs.map fun t => (t.1, t.2.1) := by
      simpa using build_nt_grammars_shape nt_defs [] res hb
    have hmem : v ∈ ms := by
      apply goalMarkers_mem res goals ms hgm g hg v
      rw [hres]
      exact hv
    have : v ∈ odedup ms := (mem_odedup ms v).mpr hmem
    rw [hod] at this
    simpa using this
  constructor
  · intro g1 g2 m1 m2 hg1 hg2 hm1 hm2 hne
    cases hfin : finish_grammar nt_defs goals true with
    | error e => rfl
    | ok args =>
        exfalso
        obtain ⟨res, ms, sel, nts, vts, hb, hge, hgm, hod, hasm, hargs⟩ :=
          finish_grammar_ok_cases nt_defs goals args hfin
        exact hne ((hsel_eq res ms sel g1 m1 hb hgm hod hg1 hm1).trans
          (hsel_eq res ms sel g2 m2 hb hgm hod hg2 hm2).symm)
  · intro args g0 m h hg0 hm0
    obtain ⟨res, ms, sel, nts, vts, hb, hge, hgm, hod, hasm, hargs⟩ :=
      finish_grammar_ok_cases nt_defs goals args h
    have hm_sel : m = sel := hsel_eq res ms sel g0 m hb hgm hod hg0 hm0
    have hnodup := finish_nodup_names nt_defs res hb
    subst hargs
    constructor
    · intro hcolon name eq d hmem heq
      have hsel_colon : sel = ":" := by rw [← hm_sel, hcolon]
      have hfold : foldedOut true sel eq = true := by
        rw [hsel_colon]
        simp [foldedOut, heq]
      constructor
      · exact (assemble_nts_vts true sel nt_defs [] [] nts vts hasm name).mpr
          (Or.inr ⟨(name, eq, d), hmem, rfl, hfold⟩)
      · apply alookup_eq_none.mpr
        intro p hp hpk
        have hkeys := assemble_nts_keys true sel nt_defs [] [] nts vts hasm
        have hp1 : p.1 ∈ nts.map Prod.fst := List.mem_map.mpr ⟨p, hp, rfl⟩
        rw [hkeys] at hp1
        simp only [List.map_nil, List.nil_append] at hp1
        obtain ⟨t, ht, ht1⟩ := List.mem_map.mp hp1
        have htf := List.mem_filter.mp ht
        have hteq : t = (name, eq, d) := by
          apply List.inj_on_of_nodup_map hnodup htf.1 hmem
          rw [ht1, hpk]
        rw [hteq] at htf
        have hcontra : foldedOut true sel eq = false := by
          have h2 := htf.2
          rw [Bool.not_eq_eq_eq_not] at h2
          exact h2
        rw [hfold] at hcontra
        cases hcontra
    · intro hnotcolon
      have hsel_ne : sel ≠ ":" := by rw [← hm_sel]; exact hnotcolon
      have hb0 : (sel == ":") = false := beq_eq_false_iff_ne.mpr hsel_ne
      have hfold_false : ∀ eq, foldedOut true sel eq = false := by
        intro eq
        simp [foldedOut, hb0]
      constructor
      · apply List.eq_nil_iff_forall_not_mem.mpr
        intro x hx
        have hmem := (assemble_nts_vts true sel nt_defs [] [] nts vts hasm x).mp hx
        rcases hmem with hx0 | ⟨t, ht, h1, h2⟩
        · cases hx0
        · rw [hfold_false t.2.1] at h2
          cases h2
      · intro name eq d hmem
        exact assemble_nts_kept true sel nt_defs hnodup [] [] nts vts hasm
          name eq d hmem (hfold_false eq) rfl

/-- C7 counterexample: with lexical goal `A` (marker `"::"`) selected,
the definition `B` with differing marker `":"` is **not** folded into
the variable-terminal set — it stays an ordinary nonterminal and the
variable-terminal set stays empty, contrary to the claim that every
nonterminal with a differing marker is folded. -/
theorem c7_counterexample :
    finish_grammar [("A", "::", EsRawDef.listD []), ("B", ":", .listD [])] ["A"] true =
      .ok ⟨[("A", .listD []), ("B", .listD [])], ["A"], []⟩ ∧
    lookupEq [("A", "::", .listD []), ("B", ":", .listD [])] "A" = some "::" ∧
    lookupEq [("A", "::", .listD []), ("B", ":", .listD [])] "B" = some ":" ∧
    (":" ≠ "::") := by
  decide

/-- Witness for `c7_finish_grammar`: mixing a syntactic and a lexical
goal fails, and with syntactic goal `A` selected the lexical definition
`B` is folded into the variable-terminal set. -/
theorem c7_finish_grammar_witness :
    isErr (finish_grammar [("A", ":", EsRawDef.listD []), ("B", "::", .listD [])]
      ["A", "B"] true) = true ∧
    ("B" ∈ (AssembledGrammarArgs.mk [("A", EsRawDef.listD [])] ["A"] ["B"]).variable_terminals ∧
      alookup "B" (AssembledGrammarArgs.mk [("A", EsRawDef.listD [])] ["A"] ["B"]).nonterminals
        = none) :=
  ⟨(c7_finish_grammar [("A", ":", EsRawDef.listD []), ("B", "::", .listD [])] ["A", "B"]).1
      "A" "B" ":" "::" (by decide) (by decide) (by decide) (by decide) (by decide),
   ((c7_finish_grammar [("A", ":", EsRawDef.listD []), ("B", "::", .listD [])] ["A"]).2
      ⟨[("A", EsRawDef.listD [])], ["A"], ["B"]⟩ "A" ":" (by decide) (by decide)
      (by decide)).1 rfl "B" "::" (.listD []) (by decide) (by decide)⟩

/-- Anatomy of a successful `construct` run: the input was non-empty
and every phase succeeded, with the grammar's fields determined by the
phase results. -/
theorem construct_ok_cases {τ : Type} (inferTypes : List (NtKey × NtDef) → List String → τ)
    (input : List (NtKey × RawNtDef)) (goal_nts : Option (List Goal))
    (vts : List String) (ti : Option τ) (g : Grammar τ)
    (h : construct inferTypes input goal_nts vts ti = .ok g) :
    ∃ k0 v0 rest ntParams nts terms,
      input = (k0, v0) :: rest ∧
      build_nt_params (keysAreNtOf k0) input [] = .ok ntParams ∧
      validate_all (odedup vts) (input.map Prod.fst) ntParams (goalsOf goal_nts input)
        input (odedup vts) = .ok (nts, terms) ∧
      synthesize_inits (keysAreNtOf k0) (input.map Prod.fst) ntParams
        (goalsOf goal_nts input) nts [] = .ok (g.nonterminals, g.init_nts) ∧
      g.terminals = terms ∧
      g.variable_terminals = odedup vts ∧
      g.typeInfo = (match ti with | some t => t | none => inferTypes nts terms) := by
  rcases input with _ | ⟨⟨k0, v0⟩, rest⟩
  · rw [construct] at h
    cases h
  · rw [construct] at h
    simp only [] at h
    cases hb : build_nt_params (keysAreNtOf k0) ((k0, v0) :: rest) [] with
    | error e =>
        rw [hb] at h
        simp only [bind, Except.bind] at h
        cases h
    | ok ntParams =>
        rw [hb] at h
        simp only [bind, Except.bind] at h
        cases hv : validate_all (odedup vts) (((k0, v0) :: rest).map Prod.fst) ntParams
            (goalsOf goal_nts ((k0, v0) :: rest)) ((k0, v0) :: rest) (odedup vts) with
        | error e =>
            rw [hv] at h
            simp only [bind, Except.bind] at h
            cases h
        | ok p =>
            rcases p with ⟨nts, terms⟩
            rw [hv] at h
            simp only [bind, Except.bind] at h
            cases hs : synthesize_inits (keysAreNtOf k0) (((k0, v0) :: rest).map Prod.fst)
                ntParams (goalsOf goal_nts ((k0, v0) :: rest)) nts [] with
            | error e =>
                rw [hs] at h
                simp only [bind, Except.bind] at h
                cases h
            | ok q =>
                rcases q with ⟨nts2, inits⟩
                rw [hs] at h
                simp only [bind, Except.bind] at h
                injection h with h
                subst h
                cases ti <;>
                  exact ⟨k0, v0, rest, ntParams, nts, terms, rfl, hb, hv, hs, rfl, rfl, rfl⟩

/-- A validated atom contains no undefined nonterminal reference. -/
theorem validate_atom_no_undef (keys : List NtKey) (ntParams : List (NtName × List String))
    (e : Element) (ctx terms : List String) (x : Element × List String)
    (h : validate_atom keys ntParams e ctx terms = .ok x) :
    elemHasUndefRef keys e = false := by
  cases e with
  | term s => rfl
  | nt e2 =>
      by_cases hd : ntDefinedAsKey keys e2 = false
      · rw [validate_atom, if_pos hd] at h
        cases h
      · rw [Bool.not_eq_false] at hd
        simp [elemHasUndefRef, hd]
  | opt i => exact Except.noConfusion h
  | lookahead s p => rfl
  | errorTok => rfl
  | errorSymbol c => rfl

/-- A validated element contains no undefined nonterminal reference. -/
theorem validate_element_no_undef (keys : List NtKey) (ntParams : List (NtName × List String))
    (e : Element) (ctx terms : List String) (x : Element × List String)
    (h : validate_element keys ntParams e ctx terms = .ok x) :
    elemHasUndefRef keys e = false := by
  cases e with
  | term s => rfl
  | nt e2 => exact validate_atom_no_undef keys ntParams (.nt e2) ctx terms x h
  | opt inner =>
      cases inner with
      | nt e2 =>
          rw [validate_element] at h
          cases ha : validate_atom keys ntParams (.nt e2) ctx terms with
          | error e =>
              rw [ha] at h
              simp only [bind, Except.bind] at h
              cases h
          | ok y =>
              show elemHasUndefRef keys (.nt e2) = false
              exact validate_atom_no_undef keys ntParams (.nt e2) ctx terms y ha
      | term s => rfl
      | opt j => exact Except.noConfusion h
      | lookahead s p => rfl
      | errorTok => rfl
      | errorSymbol c => rfl
  | lookahead s p => rfl
  | errorTok => rfl
  | errorSymbol c => rfl

/-- A validated body contains no undefined nonterminal references. -/
theorem validate_body_no_undef (keys : List NtKey) (ntParams : List (NtName × List String)) :
    ∀ (body : List Element) (ctx terms : List String) (x : List Element × List String),
      validate_body keys ntParams body ctx terms = .ok x →
      ∀ e ∈ body, elemHasUndefRef keys e = false := by
  intro body
  induction body with
  | nil => intro ctx terms x _ e he; cases he
  | cons e0 rest ih =>
      intro ctx terms x h e he
      rw [validate_body] at h
      cases h1 : validate_element keys ntParams e0 ctx terms with
      | error msg =>
          rw [h1] at h
          simp only [bind, Except.bind] at h
          cases h
      | ok y =>
          rw [h1] at h
          simp only [bind, Except.bind] at h
          cases h2 : validate_body keys ntParams rest ctx y.2 with
          | error msg =>
              rw [h2] at h
              rcases y with ⟨e2, terms2⟩
              simp only [bind, Except.bind] at h
              cases h
          | ok z =>
              rcases List.mem_cons.mp he with rfl | he'
              · exact validate_element_no_undef keys ntParams e ctx terms y h1
              · exact ih ctx y.2 z h2 e he'

mutual
/-- A reduce expression accepted by `check_reduce_action` has no
out-of-range reference. -/
theorem check_reduce_action_no_oor :
    ∀ (cl : Nat) (a : RExpr) (u : Unit), check_reduce_action cl a = .ok u →
      exprHasOutOfRange cl a = false
  | cl, .ref n, u => by
      intro h
      rw [check_reduce_action] at h
      by_cases hc : (0 ≤ n ∧ n < (cl : Int))
      · simp [exprHasOutOfRange, hc]
      · rw [if_neg hc] at h
        cases h
  | cl, .call m args, u => by
      intro h
      rw [check_reduce_action] at h
      cases hm : checkMethodName m with
      | error e =>
          rw [hm] at h
          simp only [bind, Except.bind] at h
          cases h
      | ok u2 =>
          rw [hm] at h
          simp only [bind, Except.bind] at h
          show exprsHaveOutOfRange cl args = false
          exact check_reduce_action_args_no_oor cl args u h
  | cl, .noneE, u => by intro _; rfl
  | cl, .someE i, u => by
      intro h
      rw [check_reduce_action] at h
      show exprHasOutOfRange cl i = false
      exact check_reduce_action_no_oor cl i u h

/-- Argument-list version of `check_reduce_action_no_oor`. -/
theorem check_reduce_action_args_no_oor :
    ∀ (cl : Nat) (args : List RExpr) (u : Unit), check_reduce_action_args cl args = .ok u →
      exprsHaveOutOfRange cl args = false
  | cl, [], u => by intro _; rfl
  | cl, a :: rest, u => by
      intro h
      rw [check_reduce_action_args] at h
      cases ha : check_reduce_action cl a with
      | error e =>
          rw [ha] at h
          simp only [bind, Except.bind] at h
          cases h
      | ok u2 =>
          rw [ha] at h
          simp only [bind, Except.bind] at h
          have h1 := check_reduce_action_no_oor cl a u2 ha
          have h2 := check_reduce_action_args_no_oor cl rest u h
          simp [exprsHaveOutOfRange, h1, h2]
end

/-- `desugar_bare_rhs` keeps the body unchanged. -/
theorem desugar_bare_rhs_body (nt : NtKey) (i : Nat) (sole : Bool) (body : List Element)
    (p : Production) (h : desugar_bare_rhs nt i sole body = .ok p) : p.body = body := by
  unfold desugar_bare_rhs at h
  simp only [] at h
  by_cases hc : body.length = 1 ∧ concreteLen body = 1
  · rw [if_pos hc] at h
    injection h with h
    rw [← h]
  · rw [if_neg hc] at h
    cases nt with
    | s v =>
        injection h with h
        rw [← h]
    | initK g => cases h
    | ntK e => cases h

/-- A right-hand side accepted by `copy_rhs` satisfies the claim-side
soundness property. -/
theorem copy_rhs_sound (keys : List NtKey) (ntParams : List (NtName × List String))
    (nt : NtKey) (i : Nat) (sole : Bool) (r : RawRhs) (ctx terms : List String)
    (out : Production × List String)
    (h : copy_rhs keys ntParams nt i sole r ctx terms = .ok out) :
    rawRhsOk keys r = true := by
  cases r with
  | bare body =>
      rw [copy_rhs.eq_def] at h
      simp only [bind, Except.bind] at h
      cases hd : desugar_bare_rhs nt i sole body with
      | error e =>
          rw [hd] at h
          simp only [bind, Except.bind] at h
          cases h
      | ok p =>
          rw [hd] at h
          simp only [bind, Except.bind] at h
          cases hc : check_condition ctx p.condition with
          | error e =>
              rw [hc] at h
              simp only [bind, Except.bind] at h
              cases h
          | ok u =>
              rw [hc] at h
              simp only [bind, Except.bind] at h
              cases hca : check_production_action p.body p.action with
              | error e =>
                  rw [hca] at h
                  simp only [bind, Except.bind] at h
                  cases h
              | ok u2 =>
                  rw [hca] at h
                  simp only [bind, Except.bind] at h
                  cases hvb : validate_body keys ntParams p.body ctx terms with
                  | error e =>
                      rw [hvb] at h
                      simp only [bind, Except.bind] at h
                      cases h
                  | ok z =>
                      have hbody := desugar_bare_rhs_body nt i sole body p hd
                      have hall := validate_body_no_undef keys ntParams p.body ctx terms z hvb
                      rw [rawRhsOk]
                      simp only [rawRhsBody, Bool.and_true]
                      rw [List.all_eq_true]
                      intro e he
                      have hno := hall e (by rw [hbody]; exact he)
                      show (!elemHasUndefRef keys e) = true
                      rw [hno]
                      rfl
  | prod p =>
      rw [copy_rhs.eq_def] at h
      simp only [bind, Except.bind] at h
      cases hc : check_condition ctx p.condition with
      | error e =>
          rw [hc] at h
          simp only [bind, Except.bind] at h
          cases h
      | ok u =>
          rw [hc] at h
          simp only [bind, Except.bind] at h
          cases hca : check_production_action p.body p.action with
          | error e =>
              rw [hca] at h
              simp only [bind, Except.bind] at h
              cases h
          | ok u2 =>
              rw [hca] at h
              simp only [bind, Except.bind] at h
              cases hvb : validate_body keys ntParams p.body ctx terms with
              | error e =>
                  rw [hvb] at h
                  simp only [bind, Except.bind] at h
                  cases h
              | ok z =>
                  have hall := validate_body_no_undef keys ntParams p.body ctx terms z hvb
                  rw [rawRhsOk]
                  simp only [rawRhsBody]
                  rw [Bool.and_eq_true]
                  constructor
                  · rw [List.all_eq_true]
                    intro e he
                    have hno := hall e he
                    show (!elemHasUndefRef keys e) = true
                    rw [hno]
                    rfl
                  · cases hac : p.action with
                    | accept => rfl
                    | expr a =>
                        rw [hac] at hca
                        have hno := check_reduce_action_no_oor (concreteLen p.body) a u2 hca
                        show (!exprHasOutOfRange (concreteLen p.body) a) = true
                        rw [hno]
                        rfl

/-- Every right-hand side accepted by `copy_rhs_list` satisfies the
claim-side soundness property. -/
theorem copy_rhs_list_sound (keys : List NtKey) (ntParams : List (NtName × List String))
    (nt : NtKey) (sole : Bool) (ctx : List String) :
    ∀ (rl : List RawRhs) (i : Nat) (terms : List String)
      (out : List Production × List String),
      copy_rhs_list keys ntParams nt sole ctx i rl terms = .ok out →
      ∀ r ∈ rl, rawRhsOk keys r = true := by
  intro rl
  induction rl with
  | nil => intro i terms out _ r hr; cases hr
  | cons r0 rest ih =>
      intro i terms out h r hr
      rw [copy_rhs_list] at h
      cases h1 : copy_rhs keys ntParams nt i sole r0 ctx terms with
      | error e =>
          rw [h1] at h
          simp only [bind, Except.bind] at h
          cases h
      | ok y =>
          rw [h1] at h
          simp only [bind, Except.bind] at h
          cases h2 : copy_rhs_list keys ntParams nt sole ctx (i + 1) rest y.2 with
          | error e =>
              rw [h2] at h
              rcases y with ⟨p1, t2⟩
              simp only [bind, Except.bind] at h
              cases h
          | ok z =>
              rcases List.mem_cons.mp hr with rfl | hr'
              · exact copy_rhs_sound keys ntParams nt i sole r ctx terms y h1
              · exact ih (i + 1) y.2 z h2 r hr'

/-- Every right-hand side of a definition accepted by `copy_nt_def`
satisfies the claim-side soundness property. -/
theorem copy_nt_def_sound (keys : List NtKey) (ntParams : List (NtName × List String))
    (nt : NtKey) (v : RawNtDef) (terms : List String) (out : NtDef × List String)
    (h : copy_nt_def keys ntParams nt v terms = .ok out) :
    ∀ r ∈ rawRhsList v, rawRhsOk keys r = true := by
  intro r hr
  cases v with
  | ntDef ps rl =>
      simp only [copy_nt_def] at h
      cases h1 : copy_rhs_list keys ntParams nt (rl.length == 1) ps 0 rl terms with
      | error e =>
          rw [h1] at h
          simp only [bind, Except.bind] at h
          cases h
      | ok y => exact copy_rhs_list_sound keys ntParams nt (rl.length == 1) ps rl 0 terms y h1 r hr
  | plain rl =>
      simp only [copy_nt_def] at h
      cases h1 : copy_rhs_list keys ntParams nt (rl.length == 1) [] 0 rl terms with
      | error e =>
          rw [h1] at h
          simp only [bind, Except.bind] at h
          cases h
      | ok y => exact copy_rhs_list_sound keys ntParams nt (rl.length == 1) [] rl 0 terms y h1 r hr

/-- Every right-hand side of a definition accepted by `validate_nt`
satisfies the claim-side soundness property. -/
theorem validate_nt_sound (vts : List String) (keys : List NtKey)
    (ntParams : List (NtName × List String)) (goal_nts : List Goal) (nt : NtKey)
    (v : RawNtDef) (terms : List String) (out : NtDef × List String)
    (h : validate_nt vts keys ntParams goal_nts nt v terms = .ok out) :
    ∀ r ∈ rawRhsList v, rawRhsOk keys r = true := by
  intro r hr
  unfold validate_nt at h
  cases hk : check_nt_key vts keys ntParams goal_nts nt with
  | error e =>
      rw [hk] at h
      simp only [bind, Except.bind] at h
      cases h
  | ok u =>
      rw [hk] at h
      simp only [bind, Except.bind] at h
      cases nt with
      | initK g =>
          have h2 : Except.bind (init_form_ok g v)
              (fun _ => copy_nt_def keys ntParams (NtKey.initK g) v terms) = Except.ok out := h
          cases hf : init_form_ok g v with
          | error e =>
              rw [hf] at h2
              simp only [Except.bind] at h2
              cases h2
          | ok u2 =>
              rw [hf] at h2
              simp only [Except.bind] at h2
              exact copy_nt_def_sound keys ntParams (.initK g) v terms out h2 r hr
      | s vv =>
          have h2 : copy_nt_def keys ntParams (NtKey.s vv) v terms = Except.ok out := h
          exact copy_nt_def_sound keys ntParams (.s vv) v terms out h2 r hr
      | ntK e =>
          have h2 : copy_nt_def keys ntParams (NtKey.ntK e) v terms = Except.ok out := h
          exact copy_nt_def_sound keys ntParams (.ntK e) v terms out h2 r hr

/-- Every right-hand side of every definition accepted by
`validate_all` satisfies the claim-side soundness property. -/
theorem validate_all_sound (vts : List String) (keys : List NtKey)
    (ntParams : List (NtName × List String)) (goal_nts : List Goal) :
    ∀ (input : List (NtKey × RawNtDef)) (terms : List String)
      (out : List (NtKey × NtDef) × List String),
      validate_all vts keys ntParams goal_nts input terms = .ok out →
      ∀ kv ∈ input, ∀ r ∈ rawRhsList kv.2, rawRhsOk keys r = true := by
  intro input
  induction input with
  | nil => intro terms out _ kv hkv; cases hkv
  | cons kv0 rest ih =>
      intro terms out h kv hkv
      rcases kv0 with ⟨k0, v0⟩
      rw [validate_all] at h
      cases h1 : validate_nt vts keys ntParams goal_nts k0 v0 terms with
      | error e =>
          rw [h1] at h
          simp only [bind, Except.bind] at h
          cases h
      | ok y =>
          rw [h1] at h
          simp only [bind, Except.bind] at h
          cases h2 : validate_all vts keys ntParams goal_nts rest y.2 with
          | error e =>
              rw [h2] at h
              rcases y with ⟨d1, t2⟩
              simp only [bind, Except.bind] at h
              cases h
          | ok z =>
              rcases List.mem_cons.mp hkv with rfl | hkv'
              · intro r hr
                exact validate_nt_sound vts keys ntParams goal_nts k0 v0 terms y h1 r hr
              · exact ih y.2 z h2 kv hkv'

/-- C6: grammar construction fails for any production whose reduce
action contains an integer stack reference — at the top level or
nested inside `CallMethod` arguments or `Some` — outside
`[0, concreteLen body)`; an integer reference inside that range passes
`check_reduce_action`; and lookahead rules and the error token are not
concrete elements. -/
theorem c6_reduce_index_range :
    (∀ (τ : Type) (inferTypes : List (NtKey × NtDef) → List String → τ)
       (input : List (NtKey × RawNtDef)) (goal_nts : Option (List Goal))
       (vts : List String) (ti : Option τ) (kv : NtKey × RawNtDef) (p : Production)
       (a : RExpr),
       kv ∈ input → RawRhs.prod p ∈ rawRhsList kv.2 → p.action = .expr a →
       exprHasOutOfRange (concreteLen p.body) a = true →
       isErr (construct inferTypes input goal_nts vts ti) = true) ∧
    (∀ (cl : Nat) (n : Int),
       check_reduce_action cl (.ref n) = .ok () ↔ 0 ≤ n ∧ n < (cl : Int)) ∧
    (∀ (s : List String) (pos : Bool), is_concrete_element (.lookahead s pos) = false) ∧
    is_concrete_element .errorTok = false := by
  refine ⟨?_, ?_, fun s pos => rfl, rfl⟩
  · intro τ inferTypes input goal_nts vts ti kv p a hkv hr hact hoor
    cases hc : construct inferTypes input goal_nts vts ti with
    | error e => rfl
    | ok g =>
        exfalso
        obtain ⟨k0, v0, rest, ntParams, nts, terms, hinput, hb, hv, hs, ht, hvt, hti⟩ :=
          construct_ok_cases inferTypes input goal_nts vts ti g hc
        have hok := validate_all_sound (odedup vts) (input.map Prod.fst) ntParams
          (goalsOf goal_nts input) input (odedup vts) (nts, terms) hv kv hkv
          (RawRhs.prod p) hr
        rw [rawRhsOk, Bool.and_eq_true] at hok
        have h2 := hok.2
        simp only [] at h2
        rw [hact] at h2
        simp only [] at h2
        rw [hoor] at h2
        cases h2
  · intro cl n
    rw [check_reduce_action]
    by_cases hc : (0 ≤ n ∧ n < (cl : Int))
    · rw [if_pos hc]
      simp [hc]
    · rw [if_neg hc]
      constructor
      · intro h
        cases h
      · intro h
        exact absurd h hc

/-- Concrete instance of `c6_reduce_index_range`: a sole production
`A ::= "x"` with reduce action `$1` (one concrete element, reference
1) makes construction fail. -/
theorem c6_reduce_index_range_witness :
    isErr (construct (fun _ _ => ()) [(NtKey.s "A", RawNtDef.plain
      [RawRhs.prod ⟨[Element.term "x"], Action.expr (RExpr.ref 1), none⟩])]
      none [] (some ())) = true :=
  c6_reduce_index_range.1 Unit (fun _ _ => ())
    [(NtKey.s "A", RawNtDef.plain
      [RawRhs.prod ⟨[Element.term "x"], Action.expr (RExpr.ref 1), none⟩])]
    none [] (some ())
    (NtKey.s "A", RawNtDef.plain
      [RawRhs.prod ⟨[Element.term "x"], Action.expr (RExpr.ref 1), none⟩])
    ⟨[Element.term "x"], Action.expr (RExpr.ref 1), none⟩ (RExpr.ref 1)
    (List.Mem.head _) (List.Mem.head _) rfl rfl

/-- `Nat.digitChar` of a value below 10 is a digit character. -/
theorem digitChar_isDigit (k : Nat) (h : k < 10) : (Nat.digitChar k).isDigit = true := by
  interval_cases k <;> decide

/-- `Nat.toDigitsCore` at base 10 produces digit characters. -/
theorem toDigitsCore_all_digits :
    ∀ (fuel n : Nat) (ds : List Char), ds.all Char.isDigit = true →
      (Nat.toDigitsCore 10 fuel n ds).all Char.isDigit = true := by
  intro fuel
  induction fuel with
  | zero => intro n ds hds; exact hds
  | succ f ih =>
      intro n ds hds
      rw [Nat.toDigitsCore]
      have hd : (Nat.digitChar (n % 10) :: ds).all Char.isDigit = true := by
        rw [List.all_cons, digitChar_isDigit (n % 10) (Nat.mod_lt n (by decide)), hds]
        rfl
      by_cases hz : n / 10 = 0
      · rw [if_pos hz]
        exact hd
      · rw [if_neg hz]
        exact ih (n / 10) (Nat.digitChar (n % 10) :: ds) hd

/-- `Nat.toDigitsCore` with positive fuel grows its accumulator. -/
theorem toDigitsCore_length :
    ∀ (fuel n : Nat) (ds : List Char), 1 ≤ fuel →
      ds.length + 1 ≤ (Nat.toDigitsCore 10 fuel n ds).length := by
  intro fuel
  induction fuel with
  | zero => intro n ds h; cases h
  | succ f ih =>
      intro n ds _
      rw [Nat.toDigitsCore]
      by_cases hz : n / 10 = 0
      · rw [if_pos hz]
        simp
      · rw [if_neg hz]
        cases f with
        | zero => simp [Nat.toDigitsCore]
        | succ f2 =>
            have := ih (n / 10) (Nat.digitChar (n % 10) :: ds) (Nat.succ_le_succ (Nat.zero_le f2))
            simp only [List.length_cons] at this
            omega

/-- The decimal rendering of a natural number is a nonempty digit
string. -/
theorem natToString_digits (i : Nat) :
    (toString i).data.all Char.isDigit = true ∧ (toString i).data ≠ [] := by
  have h1 : (toString i).data = Nat.toDigitsCore 10 (i + 1) i [] := rfl
  constructor
  · rw [h1]
    exact toDigitsCore_all_digits (i + 1) i [] rfl
  · rw [h1]
    intro hcon
    have := toDigitsCore_length (i + 1) i [] (Nat.succ_le_succ (Nat.zero_le i))
    rw [hcon] at this
    simp at this

/-- An identifier continuation character is not a space. -/
theorem pyIsIdentCont_ne_space (c : Char) (h : pyIsIdentCont c = true) : c ≠ ' ' := by
  intro rfl2
  subst rfl2
  cases h

/-- `splitAtFirstSpace` cuts at the first space. -/
theorem splitAtFirstSpace_append (s : List Char) :
    ∀ (v : List Char), (∀ c ∈ v, c ≠ ' ') →
      splitAtFirstSpace (v ++ ' ' :: s) = some (v, s) := by
  intro v
  induction v with
  | nil => intro _; rfl
  | cons c cs ih =>
      intro hv
      rw [List.cons_append, splitAtFirstSpace,
        if_neg (hv c (List.Mem.head _)), ih (fun x hx => hv x (List.Mem.tail _ hx))]
      rfl

/-- An identifier is a valid method name. -/
theorem checkMethodName_of_ident (v : String) (hv : pyIsIdentifier v = true) :
    checkMethodName v = .ok () := by
  rw [checkMethodName, if_pos hv]

/-- An identifier with a space and a production index appended is a
valid method name. -/
theorem checkMethodName_indexed (v : String) (i : Nat) (hv : pyIsIdentifier v = true) :
    checkMethodName (v ++ " " ++ toString i) = .ok () := by
  obtain ⟨l⟩ := v
  have hdata : (String.mk l ++ " " ++ toString i).data = l ++ ' ' :: (toString i).data := by
    rw [String.data_append, String.data_append]
    show l ++ [' '] ++ (toString i).data = l ++ ' ' :: (toString i).data
    rw [List.append_assoc]
    rfl
  rcases l with _ | ⟨c, rest⟩
  · cases hv
  · rw [pyIsIdentifier] at hv
    simp only [] at hv
    rw [Bool.and_eq_true] at hv
    have hnospace : ∀ x ∈ c :: rest, x ≠ ' ' := by
      intro x hx
      rcases List.mem_cons.mp hx with rfl | hx'
      · intro hcon
        subst hcon
        cases hv.1
      · exact pyIsIdentCont_ne_space x (by
          rw [List.all_eq_true] at hv
          exact hv.2 x hx')
    have hsplit := splitAtFirstSpace_append (toString i).data (c :: rest) hnospace
    have hidfalse : pyIsIdentifier (String.mk (c :: rest) ++ " " ++ toString i) = false := by
      rw [pyIsIdentifier]
      rw [hdata]
      simp only [List.cons_append]
      rw [Bool.and_eq_false_iff]
      right
      rw [List.all_eq_false]
      refine ⟨' ', ?_, by decide⟩
      rw [List.mem_append]
      right
      exact List.Mem.head _
    have hd := natToString_digits i
    rw [checkMethodName, hidfalse]
    simp only [Bool.false_eq_true, if_false]
    rw [hdata, hsplit]
    simp only []
    have hcond : (pyIsIdentifier (String.mk (c :: rest)) && !(toString i).data.isEmpty
        && (toString i).data.all Char.isDigit) = true := by
      rw [Bool.and_eq_true, Bool.and_eq_true]
      refine ⟨⟨?_, ?_⟩, hd.1⟩
      · rw [pyIsIdentifier]
        simp only []
        rw [Bool.and_eq_true]
        exact ⟨hv.1, hv.2⟩
      · cases hne : (toString i).data with
        | nil => exact absurd hne hd.2
        | cons a t => rfl
    rw [if_pos hcond]

/-- A name passing the Boolean mirror passes `checkMethodName`. -/
theorem checkMethodName_of_okB (m : String) (h : methodNameOkB m = true) :
    checkMethodName m = .ok () := by
  rw [methodNameOkB] at h
  rw [checkMethodName]
  by_cases hid : pyIsIdentifier m = true
  · rw [if_pos hid]
  · rw [if_neg hid] at h ⊢
    cases hs : splitAtFirstSpace m.data with
    | none =>
        rw [hs] at h
        cases h
    | some p =>
        rw [hs] at h
        rcases p with ⟨name, pn⟩
        simp only [] at h ⊢
        rw [if_pos h]

mutual
/-- A well-formed reduce expression passes `check_reduce_action`. -/
theorem check_reduce_action_complete :
    ∀ (cl : Nat) (a : RExpr), wfExpr cl a = true → check_reduce_action cl a = .ok ()
  | cl, .ref n => fun h => by
      rw [wfExpr] at h
      rw [check_reduce_action, if_pos (of_decide_eq_true h)]
  | cl, .call m args => fun h => by
      rw [wfExpr, Bool.and_eq_true] at h
      rw [check_reduce_action]
      simp only [bind, Except.bind]
      rw [checkMethodName_of_okB m h.1]
      exact check_reduce_action_args_complete cl args h.2
  | cl, .noneE => fun _ => rfl
  | cl, .someE i => fun h => by
      rw [check_reduce_action]
      exact check_reduce_action_complete cl i h

/-- Argument-list version of `check_reduce_action_complete`. -/
theorem check_reduce_action_args_complete :
    ∀ (cl : Nat) (args : List RExpr), wfExprs cl args = true →
      check_reduce_action_args cl args = .ok ()
  | cl, [] => fun _ => rfl
  | cl, a :: rest => fun h => by
      rw [wfExprs, Bool.and_eq_true] at h
      rw [check_reduce_action_args]
      simp only [bind, Except.bind]
      rw [check_reduce_action_complete cl a h.1]
      exact check_reduce_action_args_complete cl rest h.2
end

/-- `check_reduce_action_args` accepts a run of in-range forward
references. -/
theorem check_refs_range (cl : Nat) :
    ∀ (l : List Nat), (∀ k ∈ l, k < cl) →
      check_reduce_action_args cl (l.map fun k => RExpr.ref (Int.ofNat k)) = .ok () := by
  intro l
  induction l with
  | nil => intro _; rfl
  | cons k rest ih =>
      intro hk
      have hklt := hk k (List.Mem.head _)
      rw [List.map_cons, check_reduce_action_args]
      simp only [bind, Except.bind]
      rw [check_reduce_action, if_pos (by simp only [Int.ofNat_eq_coe]; omega)]
      exact ih (fun x hx => hk x (List.Mem.tail _ hx))

/-- A well-formed atom passes `validate_atom`. -/
theorem validate_atom_complete (keys : List NtKey) (ntParams : List (NtName × List String))
    (ctx terms : List String) (e : Element)
    (hwf : wfAtom keys ntParams ctx e = true) :
    ∃ out, validate_atom keys ntParams e ctx terms = .ok out := by
  cases e with
  | term s =>
      rw [wfAtom] at hwf
      rw [validate_atom]
      cases ha : alookup (NtName.str s) ntParams with
      | some ps =>
          rw [ha] at hwf
          simp only [] at hwf
          have hps : ps = [] := by
            cases ps with
            | nil => rfl
            | cons a t => cases hwf
          simp only []
          rw [if_pos hps]
          exact ⟨_, rfl⟩
      | none =>
          simp only []
          exact ⟨_, rfl⟩
  | nt e2 =>
      rw [wfAtom, Bool.and_eq_true, Bool.and_eq_true] at hwf
      obtain ⟨⟨hdef, hargs⟩, hvars⟩ := hwf
      rw [validate_atom]
      rw [if_neg (by rw [hdef]; exact fun hcon => Bool.noConfusion hcon)]
      simp only [bind, Except.bind]
      cases ha : alookup e2.name ntParams with
      | some ps =>
          rw [ha] at hargs
          simp only [] at hargs
          have hps : e2.args.map Prod.fst = ps := by rwa [beq_iff_eq] at hargs
          simp only []
          rw [if_pos hps]
          simp only [pure, Except.pure]
          rw [if_pos hvars]
          exact ⟨_, rfl⟩
      | none =>
          simp only [pure, Except.pure]
          rw [if_pos hvars]
          exact ⟨_, rfl⟩
  | opt i => exact Bool.noConfusion hwf
  | lookahead s p => exact Bool.noConfusion hwf
  | errorTok => exact Bool.noConfusion hwf
  | errorSymbol c => exact Bool.noConfusion hwf

/-- A well-formed element passes `validate_element`. -/
theorem validate_element_complete (keys : List NtKey) (ntParams : List (NtName × List String))
    (ctx terms : List String) (e : Element)
    (hwf : wfElement keys ntParams ctx e = true) :
    ∃ out, validate_element keys ntParams e ctx terms = .ok out := by
  cases e with
  | term s => exact validate_atom_complete keys ntParams ctx terms (.term s) hwf
  | nt e2 => exact validate_atom_complete keys ntParams ctx terms (.nt e2) hwf
  | opt inner =>
      cases inner with
      | term s =>
          obtain ⟨⟨e2, t2⟩, hout⟩ := validate_atom_complete keys ntParams ctx terms (.term s) hwf
          refine ⟨(.opt e2, t2), ?_⟩
          rw [validate_element]
          simp only [bind, Except.bind]
          rw [hout]
      | nt en =>
          obtain ⟨⟨e2, t2⟩, hout⟩ := validate_atom_complete keys ntParams ctx terms (.nt en) hwf
          refine ⟨(.opt e2, t2), ?_⟩
          rw [validate_element]
          simp only [bind, Except.bind]
          rw [hout]
      | opt j => exact Bool.noConfusion hwf
      | lookahead s p => exact Bool.noConfusion hwf
      | errorTok => exact Bool.noConfusion hwf
      | errorSymbol c => exact Bool.noConfusion hwf
  | lookahead s p => exact ⟨_, rfl⟩
  | errorTok => exact ⟨_, rfl⟩
  | errorSymbol c => exact Bool.noConfusion hwf

/-- A body of well-formed elements passes `validate_body`. -/
theorem validate_body_complete (keys : List NtKey) (ntParams : List (NtName × List String))
    (ctx : List String) :
    ∀ (body : List Element) (terms : List String),
      body.all (wfElement keys ntParams ctx) = true →
      ∃ out, validate_body keys ntParams body ctx terms = .ok out := by
  intro body
  induction body with
  | nil => intro terms _; exact ⟨_, rfl⟩
  | cons e rest ih =>
      intro terms hwf
      rw [List.all_cons, Bool.and_eq_true] at hwf
      obtain ⟨⟨e2, t2⟩, h1⟩ := validate_element_complete keys ntParams ctx terms e hwf.1
      obtain ⟨⟨rest2, t3⟩, h2⟩ := ih t2 hwf.2
      refine ⟨(e2 :: rest2, t3), ?_⟩
      rw [validate_body]
      simp only [bind, Except.bind]
      rw [h1]
      simp only []
      rw [h2]

/-- `desugar_bare_rhs` under a string key always succeeds, keeps the
body, synthesizes no condition, and its default action passes
`check_production_action`. -/
theorem desugar_bare_rhs_s_ok (v : String) (i : Nat) (sole : Bool) (body : List Element)
    (hv : pyIsIdentifier v = true) :
    ∃ p, desugar_bare_rhs (NtKey.s v) i sole body = .ok p ∧ p.body = body ∧
      p.condition = none ∧ check_production_action p.body p.action = .ok () := by
  unfold desugar_bare_rhs
  simp only []
  by_cases hc : body.length = 1 ∧ concreteLen body = 1
  · refine ⟨⟨body, .expr (.ref 0), none⟩, ?_, rfl, rfl, ?_⟩
    · rw [if_pos hc]
    · show check_reduce_action (concreteLen body) (.ref 0) = .ok ()
      rw [check_reduce_action, hc.2, if_pos (by decide)]
  · refine ⟨⟨body, .expr (.call (if sole then v else v ++ " " ++ toString i)
        ((List.range (concreteLen body)).map fun k => .ref (Int.ofNat k))), none⟩,
        ?_, rfl, rfl, ?_⟩
    · rw [if_neg hc]
    · show check_reduce_action (concreteLen body)
        (.call (if sole then v else v ++ " " ++ toString i)
          ((List.range (concreteLen body)).map fun k => .ref (Int.ofNat k))) = .ok ()
      rw [check_reduce_action]
      simp only [bind, Except.bind]
      have hm : checkMethodName (if sole then v else v ++ " " ++ toString i) = .ok () := by
        cases sole with
        | false => exact checkMethodName_indexed v i hv
        | true => exact checkMethodName_of_ident v hv
      rw [hm]
      exact check_refs_range (concreteLen body) (List.range (concreteLen body))
        (fun k hk => List.mem_range.mp hk)

/-- A well-formed condition passes `check_condition`. -/
theorem check_condition_of_wf (ctx : List String) (c : Option (String × Bool))
    (hwf : wfCondition ctx c = true) : check_condition ctx c = .ok () := by
  cases c with
  | none => rfl
  | some pb =>
      rcases pb with ⟨param, b⟩
      rw [wfCondition] at hwf
      rw [check_condition, if_pos (List.mem_of_elem_eq_true hwf)]

/-- A well-formed action passes `check_production_action`. -/
theorem check_production_action_of_wf (body : List Element) (a : Action)
    (hwf : wfAction body a = true) : check_production_action body a = .ok () := by
  cases a with
  | accept => rfl
  | expr e =>
      rw [wfAction] at hwf
      rw [check_production_action]
      exact check_reduce_action_complete (concreteLen body) e hwf

/-- A well-formed right-hand side under a string key passes
`copy_rhs`. -/
theorem copy_rhs_complete (keys : List NtKey) (ntParams : List (NtName × List String))
    (v : String) (i : Nat) (sole : Bool) (r : RawRhs) (ctx terms : List String)
    (hv : pyIsIdentifier v = true)
    (hwf : wfRawRhs keys ntParams ctx r = true) :
    ∃ out, copy_rhs keys ntParams (NtKey.s v) i sole r ctx terms = .ok out := by
  cases r with
  | bare body =>
      rw [wfRawRhs] at hwf
      obtain ⟨p, hd, hbody, hcondn, hact⟩ := desugar_bare_rhs_s_ok v i sole body hv
      obtain ⟨⟨b2, t2⟩, hvb⟩ := validate_body_complete keys ntParams ctx body terms hwf
      refine ⟨(⟨b2, p.action, p.condition⟩, t2), ?_⟩
      rw [copy_rhs.eq_def]
      simp only [bind, Except.bind]
      rw [hd]
      simp only []
      rw [hcondn, check_condition]
      simp only []
      rw [hact]
      simp only []
      rw [hbody, hvb]
  | prod p =>
      rw [wfRawRhs, Bool.and_eq_true, Bool.and_eq_true] at hwf
      obtain ⟨⟨hcond, hact⟩, hbody⟩ := hwf
      obtain ⟨⟨b2, t2⟩, hvb⟩ := validate_body_complete keys ntParams ctx p.body terms hbody
      refine ⟨(⟨b2, p.action, p.condition⟩, t2), ?_⟩
      rw [copy_rhs.eq_def]
      simp only [bind, Except.bind]
      rw [check_condition_of_wf ctx p.condition hcond]
      simp only []
      rw [check_production_action_of_wf p.body p.action hact]
      simp only []
      rw [hvb]

/-- A list of well-formed right-hand sides under a string key passes
`copy_rhs_list`. -/
theorem copy_rhs_list_complete (keys : List NtKey) (ntParams : List (NtName × List String))
    (v : String) (sole : Bool) (ctx : List String) (hv : pyIsIdentifier v = true) :
    ∀ (rl : List RawRhs) (i : Nat) (terms : List String),
      rl.all (wfRawRhs keys ntParams ctx) = true →
      ∃ out, copy_rhs_list keys ntParams (NtKey.s v) sole ctx i rl terms = .ok out := by
  intro rl
  induction rl with
  | nil => intro i terms _; exact ⟨_, rfl⟩
  | cons r rest ih =>
      intro i terms hwf
      rw [List.all_cons, Bool.and_eq_true] at hwf
      obtain ⟨⟨p, t2⟩, h1⟩ := copy_rhs_complete keys ntParams v i sole r ctx terms hv hwf.1
      obtain ⟨⟨ps, t3⟩, h2⟩ := ih (i + 1) t2 hwf.2
      refine ⟨(p :: ps, t3), ?_⟩
      rw [copy_rhs_list]
      simp only [bind, Except.bind]
      rw [h1]
      simp only []
      rw [h2]

/-- A well-formed raw definition under a string key passes
`copy_nt_def`. -/
theorem copy_nt_def_complete (keys : List NtKey) (ntParams : List (NtName × List String))
    (v : String) (d : RawNtDef) (terms : List String) (hv : pyIsIdentifier v = true)
    (hwf : (rawRhsList d).all (wfRawRhs keys ntParams (rawParams d)) = true) :
    ∃ out, copy_nt_def keys ntParams (NtKey.s v) d terms = .ok out := by
  cases d with
  | ntDef ps rl =>
      obtain ⟨⟨ps2, t2⟩, h1⟩ :=
        copy_rhs_list_complete keys ntParams v (rl.length == 1) ps hv rl 0 terms hwf
      refine ⟨(⟨ps, ps2⟩, t2), ?_⟩
      simp only [copy_nt_def, bind, Except.bind]
      rw [h1]
  | plain rl =>
      obtain ⟨⟨ps2, t2⟩, h1⟩ :=
        copy_rhs_list_complete keys ntParams v (rl.length == 1) [] hv rl 0 terms hwf
      refine ⟨(⟨[], ps2⟩, t2), ?_⟩
      simp only [copy_nt_def, bind, Except.bind]
      rw [h1]

/-- `check_nt_key` accepts an identifier string key that is not a
variable terminal. -/
theorem check_nt_key_s_ok (vts : List String) (keys : List NtKey)
    (ntParams : List (NtName × List String)) (goal_nts : List Goal) (v : String)
    (hv : pyIsIdentifier v = true) (hnc : vts.contains v = false) :
    check_nt_key vts keys ntParams goal_nts (NtKey.s v) = .ok () := by
  rw [check_nt_key, check_nt_key_str, hv]
  simp only [Bool.not_true, Bool.false_eq_true, if_false]
  have hnm : v ∉ vts := by
    intro hm
    have h2 : vts.contains v = true := List.elem_iff.mpr hm
    rw [h2] at hnc
    cases hnc
  rw [if_neg hnm]

/-- A well-formed entry passes `validate_nt`. -/
theorem validate_nt_complete (vts : List String) (keys : List NtKey)
    (ntParams : List (NtName × List String)) (goal_nts : List Goal) (v : String)
    (d : RawNtDef) (terms : List String)
    (hv : pyIsIdentifier v = true) (hnc : vts.contains v = false)
    (hwf : (rawRhsList d).all (wfRawRhs keys ntParams (rawParams d)) = true) :
    ∃ out, validate_nt vts keys ntParams goal_nts (NtKey.s v) d terms = .ok out := by
  obtain ⟨out, hout⟩ := copy_nt_def_complete keys ntParams v d terms hv hwf
  refine ⟨out, ?_⟩
  unfold validate_nt
  simp only [bind, Except.bind]
  rw [check_nt_key_s_ok vts keys ntParams goal_nts v hv hnc]
  exact hout

/-- An input of well-formed entries passes `validate_all`, with the
keys preserved in order. -/
theorem validate_all_complete (vts : List String) (keys : List NtKey)
    (ntParams : List (NtName × List String)) (goal_nts : List Goal) :
    ∀ (input : List (NtKey × RawNtDef)) (terms : List String),
      (∀ kv ∈ input, wfNtEntry keys ntParams vts kv = true) →
      ∃ nts terms2, validate_all vts keys ntParams goal_nts input terms = .ok (nts, terms2) ∧
        nts.map Prod.fst = input.map Prod.fst := by
  intro input
  induction input with
  | nil => intro terms _; exact ⟨[], terms, rfl, rfl⟩
  | cons kv rest ih =>
      intro terms hwfall
      have hkv := hwfall kv (List.Mem.head _)
      rcases kv with ⟨k, d⟩
      cases k with
      | s v =>
          simp only [wfNtEntry] at hkv
          rw [Bool.and_eq_true, Bool.and_eq_true] at hkv
          obtain ⟨⟨hid, hvt⟩, hrl⟩ := hkv
          have hnc : vts.contains v = false := by
            cases hcv : vts.contains v with
            | false => rfl
            | true =>
                rw [hcv] at hvt
                cases hvt
          obtain ⟨⟨d2, t2⟩, hout⟩ :=
            validate_nt_complete vts keys ntParams goal_nts v d terms hid hnc hrl
          obtain ⟨nts, t3, hrest, hmap⟩ := ih t2 (fun kv2 hk2 => hwfall kv2 (List.Mem.tail _ hk2))
          refine ⟨(NtKey.s v, d2) :: nts, t3, ?_, ?_⟩
          · rw [validate_all]
            simp only [bind, Except.bind]
            rw [hout]
            simp only []
            rw [hrest]
          · rw [List.map_cons, List.map_cons, hmap]
      | initK g => exact Bool.noConfusion hkv
      | ntK e => exact Bool.noConfusion hkv

/-- On a string-keyed input with pairwise-distinct names,
`build_nt_params` succeeds and appends one `(name, params)` pair per
entry. -/
theorem build_nt_params_str :
    ∀ (input : List (NtKey × RawNtDef)) (acc : List (NtName × List String)),
      (∀ kv ∈ input, ∃ v, kv.1 = NtKey.s v) →
      (∀ kv ∈ input, alookup (keyName kv.1) acc = none) →
      (input.map fun kv => keyName kv.1).Nodup →
      build_nt_params false input acc =
        .ok (acc ++ input.map fun kv => (keyName kv.1, rawParams kv.2)) := by
  intro input
  induction input with
  | nil =>
      intro acc _ _ _
      rw [build_nt_params, List.map_nil, List.append_nil]
  | cons kv rest ih =>
      intro acc hstr hfresh hnodup
      obtain ⟨v, hk⟩ := hstr kv (List.Mem.head _)
      rcases kv with ⟨k, d⟩
      simp only [] at hk
      subst hk
      have hfr : alookup (NtName.str v) acc = none := hfresh (NtKey.s v, d) (List.Mem.head _)
      rw [build_nt_params]
      have hknp : key_name_and_params false (NtKey.s v) d = .ok (.str v, rawParams d) := by
        cases d <;> rfl
      simp only [bind, Except.bind]
      rw [hknp]
      simp only []
      rw [hfr]
      simp only []
      rw [List.map_cons, List.nodup_cons] at hnodup
      have hfr2 : ∀ kv2 ∈ rest,
          alookup (keyName kv2.1) (acc ++ [(NtName.str v, rawParams d)]) = none := by
        intro kv2 h2
        rw [alookup_append, hfresh kv2 (List.Mem.tail _ h2)]
        simp only []
        have hne : NtName.str v ≠ keyName kv2.1 := by
          intro heq
          apply hnodup.1
          have hmm : keyName kv2.1 ∈ rest.map (fun kv => keyName kv.1) :=
            List.mem_map.mpr ⟨kv2, h2, rfl⟩
          rw [← heq] at hmm
          exact hmm
        rw [alookup, if_neg hne]
        rfl
      have hih := ih (acc ++ [(NtName.str v, rawParams d)])
        (fun kv2 h2 => hstr kv2 (List.Mem.tail _ h2)) hfr2 hnodup.2
      rw [hih]
      simp [List.append_assoc, keyName]

/-- On a string-keyed input with pairwise-distinct names,
`specNtParams` is the entry-wise `(name, params)` list. -/
theorem specNtParams_acc :
    ∀ (input : List (NtKey × RawNtDef)) (acc : List (NtName × List String)),
      (∀ kv ∈ input, ∃ v, kv.1 = NtKey.s v) →
      (∀ kv ∈ input, alookup (keyName kv.1) acc = none) →
      (input.map fun kv => keyName kv.1).Nodup →
      input.foldl
        (fun acc kv =>
          match alookup (keyName kv.1) acc with
          | some _ => acc
          | none => acc ++ [(keyName kv.1, match kv.1 with
              | .ntK e => e.args.map Prod.fst
              | _ => rawParams kv.2)])
        acc = acc ++ input.map fun kv => (keyName kv.1, rawParams kv.2) := by
  intro input
  induction input with
  | nil =>
      intro acc _ _ _
      rw [List.foldl_nil, List.map_nil, List.append_nil]
  | cons kv rest ih =>
      intro acc hstr hfresh hnodup
      obtain ⟨v, hk⟩ := hstr kv (List.Mem.head _)
      rcases kv with ⟨k, d⟩
      simp only [] at hk
      subst hk
      have hfr : alookup (keyName (NtKey.s v)) acc = none :=
        hfresh (NtKey.s v, d) (List.Mem.head _)
      rw [List.foldl_cons]
      simp only []
      rw [hfr]
      simp only []
      rw [List.map_cons, List.nodup_cons] at hnodup
      have hfr2 : ∀ kv2 ∈ rest,
          alookup (keyName kv2.1) (acc ++ [(keyName (NtKey.s v), rawParams d)]) = none := by
        intro kv2 h2
        rw [alookup_append, hfresh kv2 (List.Mem.tail _ h2)]
        simp only []
        have hne : keyName (NtKey.s v) ≠ keyName kv2.1 := by
          intro heq
          apply hnodup.1
          have hmm : keyName kv2.1 ∈ rest.map (fun kv => keyName kv.1) :=
            List.mem_map.mpr ⟨kv2, h2, rfl⟩
          rw [← heq] at hmm
          exact hmm
        rw [alookup, if_neg hne]
        rfl
      have hih := ih (acc ++ [(keyName (NtKey.s v), rawParams d)])
        (fun kv2 h2 => hstr kv2 (List.Mem.tail _ h2)) hfr2 hnodup.2
      rw [hih]
      simp [List.append_assoc, keyName]

/-- `specNtParams` on a string-keyed, duplicate-free input. -/
theorem specNtParams_eq (input : List (NtKey × RawNtDef))
    (hstr : ∀ kv ∈ input, ∃ v, kv.1 = NtKey.s v)
    (hnodup : (input.map fun kv => keyName kv.1).Nodup) :
    specNtParams input = input.map fun kv => (keyName kv.1, rawParams kv.2) := by
  rw [specNtParams]
  exact specNtParams_acc input [] hstr (fun kv _ => rfl) hnodup

/-- Init synthesis over string goals that name defined parameterless
nonterminals and are fresh: one appended `InitNt` entry per goal, with
the single `init_production`, and one appended init name per goal. -/
theorem synthesize_inits_str (keys : List NtKey) (ntParams : List (NtName × List String)) :
    ∀ (gs : List String) (nts : List (NtKey × NtDef)) (inits : List NtE),
      gs.Nodup →
      (∀ gl ∈ gs, alookup (NtName.str gl) ntParams = some []) →
      (∀ gl ∈ gs, ¬ (NtKey.initK ⟨gl, []⟩ ∈ nts.map Prod.fst)) →
      synthesize_inits false keys ntParams (gs.map Goal.s) nts inits =
        .ok (nts ++ gs.map fun gl =>
               (NtKey.initK ⟨gl, []⟩, (⟨[], [init_production ⟨gl, []⟩]⟩ : NtDef)),
             inits ++ gs.map fun gl => (⟨.init ⟨gl, []⟩, []⟩ : NtE)) := by
  intro gs
  induction gs with
  | nil =>
      intro nts inits _ _ _
      rw [List.map_nil, synthesize_inits, List.map_nil, List.append_nil,
        List.map_nil, List.append_nil]
  | cons gl rest ih =>
      intro nts inits hnodup hdef hfresh
      rw [List.map_cons, synthesize_inits]
      have hg : goal_to_ntstr false keys ntParams (Goal.s gl) = .ok ⟨gl, []⟩ := by
        rw [goal_to_ntstr, if_pos (hdef gl (List.Mem.head _))]
      have hcont : (nts.map Prod.fst).contains (NtKey.initK ⟨gl, []⟩) = false := by
        cases hcc : (nts.map Prod.fst).contains (NtKey.initK ⟨gl, []⟩) with
        | false => rfl
        | true => exact absurd (List.mem_of_elem_eq_true hcc) (hfresh gl (List.Mem.head _))
      simp only [bind, Except.bind]
      rw [hg]
      show synthesize_inits false keys ntParams (rest.map Goal.s)
          (if (nts.map Prod.fst).contains (NtKey.initK ⟨gl, []⟩) = true then nts
           else nts ++ [(NtKey.initK ⟨gl, []⟩, ⟨[], [init_production ⟨gl, []⟩]⟩)])
          (inits ++ [⟨.init ⟨gl, []⟩, []⟩]) = _
      rw [hcont, if_neg Bool.false_ne_true]
      rw [List.nodup_cons] at hnodup
      have hfr2 : ∀ x ∈ rest, ¬ (NtKey.initK ⟨x, []⟩ ∈
          ((nts ++ [(NtKey.initK ⟨gl, []⟩,
            (⟨[], [init_production ⟨gl, []⟩]⟩ : NtDef))]).map Prod.fst)) := by
        intro x hx hmem
        rw [List.map_append, List.mem_append] at hmem
        rcases hmem with hmem | hmem
        · exact hfresh x (List.Mem.tail _ hx) hmem
        · simp only [List.map_cons, List.map_nil] at hmem
          rcases List.mem_singleton.mp hmem with heq
          injection heq with heq2
          injection heq2 with heq3 heq4
          subst heq3
          exact hnodup.1 hx
      have hih := ih
        (nts ++ [(NtKey.initK ⟨gl, []⟩, (⟨[], [init_production ⟨gl, []⟩]⟩ : NtDef))])
        (inits ++ [⟨.init ⟨gl, []⟩, []⟩]) hnodup.2
        (fun x hx => hdef x (List.Mem.tail _ hx)) hfr2
      rw [hih]
      simp [List.append_assoc]

/-- C1 (corrected): grammar construction on a raw mapping containing,
in any production body, a reference to an undefined nonterminal fails;
and on a string-keyed input with duplicate-free names whose entries
pass the full validation conditions (`wfInputStr`: identifier keys not
colliding with variable terminals, defined references with matching
argument tuples, valid method names, in-range reduce indices,
conditions over declared parameters), with duplicate-free string goals
naming defined parameterless nonterminals, construction succeeds and
the resulting nonterminal list is the validated input entries (same
keys, in order) plus exactly one synthesized init nonterminal per
goal, each carrying the single production `[goal]` with the `'accept'`
action (`init_production`).  The claim's own three well-formedness
conditions alone are not sufficient for success; see the
counterexample. -/
theorem c1_grammar_construction :
    (∀ (τ : Type) (inferTypes : List (NtKey × NtDef) → List String → τ)
       (input : List (NtKey × RawNtDef)) (goal_nts : Option (List Goal))
       (vts : List String) (ti : Option τ) (kv : NtKey × RawNtDef) (r : RawRhs)
       (e : Element),
       kv ∈ input → r ∈ rawRhsList kv.2 → e ∈ rawRhsBody r →
       elemHasUndefRef (input.map Prod.fst) e = true →
       isErr (construct inferTypes input goal_nts vts ti) = true) ∧
    (∀ (τ : Type) (inferTypes : List (NtKey × NtDef) → List String → τ)
       (k0 : NtKey) (v0 : RawNtDef) (rest : List (NtKey × RawNtDef))
       (gs : List String) (vts : List String) (ti : Option τ),
       (∀ kv ∈ (k0, v0) :: rest, ∃ v, kv.1 = NtKey.s v) →
       (((k0, v0) :: rest).map fun kv => keyName kv.1).Nodup →
       wfInputStr ((k0, v0) :: rest) vts = true →
       gs.Nodup →
       (∀ gl ∈ gs, alookup (NtName.str gl) (specNtParams ((k0, v0) :: rest)) = some []) →
       ∃ g, construct inferTypes ((k0, v0) :: rest) (some (gs.map Goal.s)) vts ti = .ok g ∧
         ∃ nts, nts.map Prod.fst = ((k0, v0) :: rest).map Prod.fst ∧
           g.nonterminals = nts ++ gs.map fun gl =>
             (NtKey.initK ⟨gl, []⟩, (⟨[], [init_production ⟨gl, []⟩]⟩ : NtDef))) := by
  constructor
  · intro τ inferTypes input goal_nts vts ti kv r e hkv hr he hund
    cases hc : construct inferTypes input goal_nts vts ti with
    | error msg => rfl
    | ok g =>
        exfalso
        obtain ⟨k0, v0, rest, ntParams, nts, terms, hinput, hb, hv, hs, ht, hvt, hti⟩ :=
          construct_ok_cases inferTypes input goal_nts vts ti g hc
        have hok := validate_all_sound (odedup vts) (input.map Prod.fst) ntParams
          (goalsOf goal_nts input) input (odedup vts) (nts, terms) hv kv hkv r hr
        rw [rawRhsOk.eq_def, Bool.and_eq_true] at hok
        have h1 := hok.1
        rw [List.all_eq_true] at h1
        have h2 := h1 e he
        simp only [] at h2
        rw [hund] at h2
        cases h2
  · intro τ it k0 v0 rest gs vts ti hstr hnodup hwf hgnd hgdef
    obtain ⟨va, hk0⟩ := hstr (k0, v0) (List.Mem.head _)
    simp only [] at hk0
    subst hk0
    have hb := build_nt_params_str ((NtKey.s va, v0) :: rest) [] hstr (fun kv _ => rfl) hnodup
    have hspec := specNtParams_eq ((NtKey.s va, v0) :: rest) hstr hnodup
    have hwf' : ∀ kv ∈ (NtKey.s va, v0) :: rest,
        wfNtEntry (((NtKey.s va, v0) :: rest).map Prod.fst)
          (((NtKey.s va, v0) :: rest).map fun kv => (keyName kv.1, rawParams kv.2))
          (odedup vts) kv = true := by
      intro kv hkv
      rw [wfInputStr, List.all_eq_true] at hwf
      have h2 := hwf kv hkv
      rw [hspec] at h2
      exact h2
    obtain ⟨nts, terms2, hva, hmap⟩ := validate_all_complete (odedup vts)
      (((NtKey.s va, v0) :: rest).map Prod.fst)
      (((NtKey.s va, v0) :: rest).map fun kv => (keyName kv.1, rawParams kv.2))
      (gs.map Goal.s) ((NtKey.s va, v0) :: rest) (odedup vts) hwf'
    have hfresh : ∀ gl ∈ gs, ¬ (NtKey.initK ⟨gl, []⟩ ∈ nts.map Prod.fst) := by
      intro gl hgl hmem
      rw [hmap] at hmem
      rcases List.mem_map.mp hmem with ⟨kv, hkv, hkeq⟩
      obtain ⟨v, hv2⟩ := hstr kv hkv
      rw [hv2] at hkeq
      cases hkeq
    have hgdef' : ∀ gl ∈ gs,
        alookup (NtName.str gl)
          (((NtKey.s va, v0) :: rest).map fun kv => (keyName kv.1, rawParams kv.2)) =
          some [] := by
      intro gl hgl
      rw [← hspec]
      exact hgdef gl hgl
    have hs := synthesize_inits_str (((NtKey.s va, v0) :: rest).map Prod.fst)
      (((NtKey.s va, v0) :: rest).map fun kv => (keyName kv.1, rawParams kv.2))
      gs nts [] hgnd hgdef' hfresh
    have hb2 : build_nt_params (keysAreNtOf (NtKey.s va)) ((NtKey.s va, v0) :: rest) [] =
        .ok (((NtKey.s va, v0) :: rest).map fun kv => (keyName kv.1, rawParams kv.2)) := hb
    have hva2 : validate_all (odedup vts) (((NtKey.s va, v0) :: rest).map Prod.fst)
        (((NtKey.s va, v0) :: rest).map fun kv => (keyName kv.1, rawParams kv.2))
        (goalsOf (some (gs.map Goal.s)) ((NtKey.s va, v0) :: rest))
        ((NtKey.s va, v0) :: rest) (odedup vts) = .ok (nts, terms2) := hva
    have hs2 : synthesize_inits (keysAreNtOf (NtKey.s va))
        (((NtKey.s va, v0) :: rest).map Prod.fst)
        (((NtKey.s va, v0) :: rest).map fun kv => (keyName kv.1, rawParams kv.2))
        (goalsOf (some (gs.map Goal.s)) ((NtKey.s va, v0) :: rest)) nts [] =
        .ok (nts ++ gs.map fun gl =>
               (NtKey.initK ⟨gl, []⟩, (⟨[], [init_production ⟨gl, []⟩]⟩ : NtDef)),
             [] ++ gs.map fun gl => (⟨.init ⟨gl, []⟩, []⟩ : NtE)) := hs
    refine ⟨⟨nts ++ gs.map fun gl =>
        (NtKey.initK ⟨gl, []⟩, (⟨[], [init_production ⟨gl, []⟩]⟩ : NtDef)),
      terms2, odedup vts,
      (match ti with | some t => t | none => it nts terms2),
      [] ++ gs.map fun gl => (⟨.init ⟨gl, []⟩, []⟩ : NtE)⟩, ?_, nts, hmap, rfl⟩
    rw [construct]
    simp only [bind, Except.bind]
    rw [hb2]
    simp only []
    rw [hva2]
    simp only []
    rw [hs2]

/-- Counterexample to C1 as worded: an input satisfying the claim's
three well-formedness conditions (all references resolve, argument
tuples match, reduce indices in range) on which construction still
fails — the reduce action's method name is not a valid identifier. -/
theorem c1_counterexample :
    claimC1WellFormed [(NtKey.s "A", RawNtDef.plain
      [RawRhs.prod ⟨[Element.term "x"], Action.expr (RExpr.call "not an id!" []), none⟩])] =
      true ∧
    isErr (construct (fun _ _ => ()) [(NtKey.s "A", RawNtDef.plain
      [RawRhs.prod ⟨[Element.term "x"], Action.expr (RExpr.call "not an id!" []), none⟩])]
      (some [Goal.s "A"]) [] (some ())) = true := by
  constructor
  · decide
  · decide

/-- Concrete instance of `c1_grammar_construction`: the one-entry
grammar `A ::= "x"` with goal `A` constructs successfully, and its
nonterminal list is the entry for `A` plus the synthesized init
nonterminal for the goal. -/
theorem c1_grammar_construction_witness :
    ∃ g, construct (fun _ _ => ())
        [(NtKey.s "A", RawNtDef.plain [RawRhs.bare [Element.term "x"]])]
        (some (["A"].map Goal.s)) [] (some ()) = .ok g ∧
      ∃ nts, nts.map Prod.fst =
          [(NtKey.s "A", RawNtDef.plain [RawRhs.bare [Element.term "x"]])].map Prod.fst ∧
        g.nonterminals = nts ++ ["A"].map fun gl =>
          (NtKey.initK ⟨gl, []⟩, (⟨[], [init_production ⟨gl, []⟩]⟩ : NtDef)) :=
  c1_grammar_construction.2 Unit (fun _ _ => ()) (NtKey.s "A")
    (RawNtDef.plain [RawRhs.bare [Element.term "x"]]) [] ["A"] [] (some ())
    (fun kv hkv => by rcases List.mem_singleton.mp hkv with rfl; exact ⟨"A", rfl⟩)
    (by decide) (by decide) (by decide) (by decide)

/-- Ordered-set insertion preserves `Nodup`. -/
theorem insertIfAbsent_nodup {α : Type} [DecidableEq α] (x : α) (l : List α)
    (hl : l.Nodup) : (insertIfAbsent x l).Nodup := by
  rw [insertIfAbsent]
  by_cases hx : x ∈ l
  · rwa [if_pos hx]
  · rw [if_neg hx]
    rw [List.nodup_append]
    refine ⟨hl, List.nodup_singleton x, ?_⟩
    intro a ha hax
    rcases List.mem_singleton.mp hax with rfl
    exact hx ha

/-- The ordered-set fold produces a duplicate-free list. -/
theorem odedup_foldl_nodup {α : Type} [DecidableEq α] :
    ∀ (l acc : List α), acc.Nodup →
      (l.foldl (fun acc x => insertIfAbsent x acc) acc).Nodup := by
  intro l
  induction l with
  | nil => intro acc hacc; exact hacc
  | cons x rest ih =>
      intro acc hacc
      rw [List.foldl_cons]
      exact ih (insertIfAbsent x acc) (insertIfAbsent_nodup x acc hacc)

/-- `odedup` produces a duplicate-free list. -/
theorem odedup_nodup {α : Type} [DecidableEq α] (l : List α) : (odedup l).Nodup :=
  odedup_foldl_nodup l [] List.nodup_nil

/-- The ordered-set fold of a duplicate-free fresh list appends it. -/
theorem odedup_foldl_of_nodup {α : Type} [DecidableEq α] :
    ∀ (l acc : List α), (∀ x ∈ l, x ∉ acc) → l.Nodup →
      l.foldl (fun acc x => insertIfAbsent x acc) acc = acc ++ l := by
  intro l
  induction l with
  | nil => intro acc _ _; rw [List.foldl_nil, List.append_nil]
  | cons x rest ih =>
      intro acc hfr hnd
      rw [List.nodup_cons] at hnd
      rw [List.foldl_cons, insertIfAbsent, if_neg (hfr x (List.Mem.head _))]
      rw [ih (acc ++ [x]) ?fr hnd.2]
      · simp [List.append_assoc]
      case fr =>
        intro y hy hmem
        rw [List.mem_append] at hmem
        rcases hmem with hmem | hmem
        · exact hfr y (List.Mem.tail _ hy) hmem
        · rcases List.mem_singleton.mp hmem with rfl
          exact hnd.1 hy

/-- `odedup` fixes duplicate-free lists. -/
theorem odedup_eq_self_of_nodup {α : Type} [DecidableEq α] (l : List α) (hl : l.Nodup) :
    odedup l = l := by
  rw [odedup, odedup_foldl_of_nodup l [] (fun x _ hx => (List.not_mem_nil x) hx) hl,
    List.nil_append]

/-- `odedup` is idempotent. -/
theorem odedup_idem {α : Type} [DecidableEq α] (l : List α) :
    odedup (odedup l) = odedup l :=
  odedup_eq_self_of_nodup (odedup l) (odedup_nodup l)

/-- A successful `goal_to_ntstr` on an `Nt` goal built from an `NtStr`
returns that `NtStr`. -/
theorem goal_to_ntstr_nt_ok (kan : Bool) (keys : List NtKey)
    (ntParams : List (NtName × List String)) (gl st : NtStr)
    (h : goal_to_ntstr kan keys ntParams (Goal.nt (ntEOfStr gl)) = .ok st) : st = gl := by
  rw [goal_to_ntstr] at h
  by_cases hc : (if kan = true then keys.contains (NtKey.ntK (ntEOfStr gl))
      else nameIsKey keys (ntEOfStr gl).name) = true
  · rw [if_pos hc] at h
    simp only [ntEOfStr] at h
    injection h with h
    rcases gl with ⟨n, a⟩
    rw [← h]
  · rw [if_neg hc] at h
    cases h

/-- Successful init synthesis over `Nt`-of-`NtStr` goals appends one
init name per goal. -/
theorem synthesize_inits_nt_goals (kan : Bool) (keys : List NtKey)
    (ntParams : List (NtName × List String)) :
    ∀ (gls : List NtStr) (nts : List (NtKey × NtDef)) (inits : List NtE)
      (out : List (NtKey × NtDef) × List NtE),
      synthesize_inits kan keys ntParams (gls.map fun gl => Goal.nt (ntEOfStr gl)) nts inits =
        .ok out →
      out.2 = inits ++ gls.map fun gl => (⟨.init gl, []⟩ : NtE) := by
  intro gls
  induction gls with
  | nil =>
      intro nts inits out h
      rw [List.map_nil, synthesize_inits] at h
      injection h with h
      rw [← h, List.map_nil, List.append_nil]
  | cons gl rest ih =>
      intro nts inits out h
      rw [List.map_cons, synthesize_inits] at h
      simp only [bind, Except.bind] at h
      cases hg : goal_to_ntstr kan keys ntParams (Goal.nt (ntEOfStr gl)) with
      | error e =>
          rw [hg] at h
          simp only [] at h
          cases h
      | ok st =>
          rw [hg] at h
          simp only [] at h
          rcases goal_to_ntstr_nt_ok kan keys ntParams gl st hg with rfl
          rw [ih _ _ _ h]
          simp [List.append_assoc]

/-- A grammar whose init list is exactly the init names of a goal list
has those goals. -/
theorem goals_of_init_nts {τ : Type} (g2 : Grammar τ) (gls : List NtStr)
    (h : g2.init_nts = gls.map fun gl => (⟨.init gl, []⟩ : NtE)) :
    Grammar.goals g2 = gls := by
  rw [Grammar.goals, h]
  clear h
  induction gls with
  | nil => rfl
  | cons gl rest ih =>
      rw [List.map_cons, List.filterMap_cons]
      simp only []
      rw [ih]

/-- With explicit type information, `construct` never consults the
type-inference function. -/
theorem construct_inferTypes_irrel {τ : Type}
    (f1 f2 : List (NtKey × NtDef) → List String → τ)
    (x : List (NtKey × RawNtDef)) (gn : Option (List Goal)) (v : List String) (t : τ) :
    construct f1 x gn v (some t) = construct f2 x gn v (some t) := rfl

/-- C9: `with_nonterminals` reuses the previously computed type
information without re-running type inference — its result does not
depend on the inference function at all — and, for a grammar `g`
obtained from a successful construction, a successful
`with_nonterminals` on any accepted mapping yields a grammar with the
same type information, the same variable-terminal set and the same
goals as `g` (the embedding is purely functional, so `g` itself is
unchanged by construction). -/
theorem c9_with_nonterminals :
    (∀ (τ : Type) (f1 f2 : List (NtKey × NtDef) → List String → τ) (g : Grammar τ)
       (m : List (NtKey × RawNtDef)),
       with_nonterminals f1 g m = with_nonterminals f2 g m) ∧
    (∀ (τ : Type) (f0 f : List (NtKey × NtDef) → List String → τ)
       (x0 : List (NtKey × RawNtDef)) (gn0 : Option (List Goal)) (vts0 : List String)
       (ti0 : Option τ) (g : Grammar τ) (m : List (NtKey × RawNtDef)) (g2 : Grammar τ),
       construct f0 x0 gn0 vts0 ti0 = .ok g →
       with_nonterminals f g m = .ok g2 →
       g2.typeInfo = g.typeInfo ∧ g2.variable_terminals = g.variable_terminals ∧
         Grammar.goals g2 = Grammar.goals g) := by
  constructor
  · intro τ f1 f2 g m
    exact construct_inferTypes_irrel f1 f2 m
      (some (g.goals.map fun gl => Goal.nt (ntEOfStr gl))) g.variable_terminals g.typeInfo
  · intro τ f0 f x0 gn0 vts0 ti0 g m g2 hg h2
    obtain ⟨k0, v0, rest, ntParams, nts, terms, hinput, hb, hv, hs, ht, hvt, hti⟩ :=
      construct_ok_cases f0 x0 gn0 vts0 ti0 g hg
    obtain ⟨k0', v0', rest', ntParams', nts', terms', hinput', hb', hv', hs', ht', hvt', hti'⟩ :=
      construct_ok_cases f m (some (g.goals.map fun gl => Goal.nt (ntEOfStr gl)))
        g.variable_terminals (some g.typeInfo) g2 h2
    refine ⟨hti', ?_, ?_⟩
    · rw [hvt', hvt, odedup_idem]
    · have hs2 : synthesize_inits (keysAreNtOf k0') (m.map Prod.fst) ntParams'
          (g.goals.map fun gl => Goal.nt (ntEOfStr gl)) nts' [] =
          .ok (g2.nonterminals, g2.init_nts) := hs'
      have hinit : g2.init_nts =
          [] ++ (Grammar.goals g).map fun gl => (⟨.init gl, []⟩ : NtE) :=
        synthesize_inits_nt_goals (keysAreNtOf k0') (m.map Prod.fst) ntParams'
          g.goals nts' [] (g2.nonterminals, g2.init_nts) hs2
      exact goals_of_init_nts g2 (Grammar.goals g) (by rw [hinit, List.nil_append])

/-- Concrete instance of `c9_with_nonterminals`: rebuilding the
constructed grammar `A ::= "x"` with its own mapping preserves the type
information, the variable terminals and the goals. -/
theorem c9_with_nonterminals_witness :
    (⟨[(.s "A", ⟨[], [⟨[.term "x"], .expr (.ref 0), none⟩]⟩),
       (.initK ⟨"A", []⟩, ⟨[], [⟨[.nt ⟨.str "A", []⟩], .accept, none⟩]⟩)],
      ["x"], [], (), [⟨.init ⟨"A", []⟩, []⟩]⟩ : Grammar Unit).typeInfo =
      (⟨[(.s "A", ⟨[], [⟨[.term "x"], .expr (.ref 0), none⟩]⟩),
         (.initK ⟨"A", []⟩, ⟨[], [⟨[.nt ⟨.str "A", []⟩], .accept, none⟩]⟩)],
        ["x"], [], (), [⟨.init ⟨"A", []⟩, []⟩]⟩ : Grammar Unit).typeInfo ∧
    (⟨[(.s "A", ⟨[], [⟨[.term "x"], .expr (.ref 0), none⟩]⟩),
       (.initK ⟨"A", []⟩, ⟨[], [⟨[.nt ⟨.str "A", []⟩], .accept, none⟩]⟩)],
      ["x"], [], (), [⟨.init ⟨"A", []⟩, []⟩]⟩ : Grammar Unit).variable_terminals =
      (⟨[(.s "A", ⟨[], [⟨[.term "x"], .expr (.ref 0), none⟩]⟩),
         (.initK ⟨"A", []⟩, ⟨[], [⟨[.nt ⟨.str "A", []⟩], .accept, none⟩]⟩)],
        ["x"], [], (), [⟨.init ⟨"A", []⟩, []⟩]⟩ : Grammar Unit).variable_terminals ∧
    Grammar.goals (⟨[(.s "A", ⟨[], [⟨[.term "x"], .expr (.ref 0), none⟩]⟩),
       (.initK ⟨"A", []⟩, ⟨[], [⟨[.nt ⟨.str "A", []⟩], .accept, none⟩]⟩)],
      ["x"], [], (), [⟨.init ⟨"A", []⟩, []⟩]⟩ : Grammar Unit) =
      Grammar.goals (⟨[(.s "A", ⟨[], [⟨[.term "x"], .expr (.ref 0), none⟩]⟩),
         (.initK ⟨"A", []⟩, ⟨[], [⟨[.nt ⟨.str "A", []⟩], .accept, none⟩]⟩)],
        ["x"], [], (), [⟨.init ⟨"A", []⟩, []⟩]⟩ : Grammar Unit) :=
  c9_with_nonterminals.2 Unit (fun _ _ => ()) (fun _ _ => ())
    [(.s "A", .plain [.bare [.term "x"]])] (some [Goal.s "A"]) [] (some ())
    (⟨[(.s "A", ⟨[], [⟨[.term "x"], .expr (.ref 0), none⟩]⟩),
       (.initK ⟨"A", []⟩, ⟨[], [⟨[.nt ⟨.str "A", []⟩], .accept, none⟩]⟩)],
      ["x"], [], (), [⟨.init ⟨"A", []⟩, []⟩]⟩ : Grammar Unit)
    [(.s "A", .plain [.bare [.term "x"]])]
    (⟨[(.s "A", ⟨[], [⟨[.term "x"], .expr (.ref 0), none⟩]⟩),
       (.initK ⟨"A", []⟩, ⟨[], [⟨[.nt ⟨.str "A", []⟩], .accept, none⟩]⟩)],
      ["x"], [], (), [⟨.init ⟨"A", []⟩, []⟩]⟩ : Grammar Unit)
    (by decide) (by decide)

end Jsparagus

